import Mathlib

/-!
Verification of the `gerador-propostas` backend against its specification.

This file gives a shallow embedding, in Lean 4, of the parts of the Python
backend that the specification's claims are about:

* `backend/app/payments/kiwify.py` — webhook payload normalization,
  approval / refund detection, buyer-email extraction;
* `backend/app/services/proposal_generator.py` — the layered
  text-sanitization / post-processing pipeline for generated proposal text;
* `backend/app/routes.py` — proposal creation, per-user access to proposals,
  the paywall gate on the PDF endpoint, and the free-plan quota logic;
* `backend/app/payments/routes.py` — the Kiwify webhook receiver and its
  idempotency mechanism backed by `backend/app/db/models.py`.

Python strings are modelled as `List Char`; Python `None`-able values as
`Option`; JSON payloads as the inductive `Json` type below.  `json.loads`
(an external library call) is modelled as an explicit parameter
`loads : List Char → Option Json` (`none` = parse error); all theorems about
payload handling are proved for every such parser.  Machine-level details
(HTTP, the ORM wire protocol, real clock time) are abstracted: time is a
`Nat` parameter and database tables are in-memory lists.
-/

namespace GP

/-- Convert a Lean string literal to the `List Char` representation used
throughout this development. -/
def sl (s : String) : List Char := s.data

/-! ## Python character / string primitives -/

/-- Python `\s` / `str.strip()` whitespace (the ASCII whitespace characters;
`\xa0` is already replaced by a plain space by `_normalize` before any of the
whitespace-sensitive code runs). -/
def isPySpace (c : Char) : Bool :=
  c = ' ' || c = '\t' || c = '\n' || c = '\r' || c = '\x0b' || c = '\x0c'

/-- Python `str.lower()` on the alphabets this application manipulates
(ASCII plus the Latin-1 accented capitals used by the Portuguese texts). -/
def lowerChar (c : Char) : Char :=
  if 65 ≤ c.toNat ∧ c.toNat ≤ 90 then Char.ofNat (c.toNat + 32)
  else if 192 ≤ c.toNat ∧ c.toNat ≤ 222 ∧ c.toNat ≠ 215 then Char.ofNat (c.toNat + 32)
  else c

/-- Python `str.lower()`. -/
def lowerStr (s : List Char) : List Char := s.map lowerChar

/-- Python `str.strip()` (no argument: strip whitespace from both ends). -/
def pyStrip (s : List Char) : List Char :=
  List.rdropWhile isPySpace (s.dropWhile isPySpace)

/-- Python `str.rstrip()` with whitespace only. -/
def rstripWs (s : List Char) : List Char :=
  List.rdropWhile isPySpace s

/-- Python `str.lstrip("\n")`. -/
def lstripNl (s : List Char) : List Char := s.dropWhile (· = '\n')

/-- Python `needle in hay` on strings. -/
def strIn (needle hay : List Char) : Bool :=
  List.isPrefixOf needle hay ||
    match hay with
    | [] => false
    | _ :: t => strIn needle t

/-- Python `str.endswith`. -/
def endsWithL (suf s : List Char) : Bool :=
  List.isPrefixOf suf.reverse s.reverse

/-- Match a (lowercase) pattern case-insensitively against the head of `s`
(the effect of `re.IGNORECASE` on a literal); returns the remaining text. -/
def matchCI : List Char → List Char → Option (List Char)
  | [], s => some s
  | _ :: _, [] => none
  | p :: ps, c :: cs => if lowerChar c = p then matchCI ps cs else none

/-- Decimal digits of a natural number. -/
def natToStr (n : Nat) : List Char := Nat.toDigits 10 n

/-- Python `str(int)`. -/
def intToStr (i : Int) : List Char :=
  if i < 0 then '-' :: natToStr i.natAbs else natToStr i.toNat

/-! ## The JSON value model

Kiwify webhook payloads are JSON.  Numbers are modelled as integers (the
fields the code inspects are statuses, identifiers and e-mail strings). -/

inductive Json where
  | null
  | bool (b : Bool)
  | int (n : Int)
  | str (s : List Char)
  | arr (elems : List Json)
  | obj (fields : List (List Char × Json))
deriving Repr

/-- Python truthiness of a JSON value (`bool(v)`). -/
def pyTruthy : Json → Bool
  | .null => false
  | .bool b => b
  | .int n => n ≠ 0
  | .str s => !s.isEmpty
  | .arr xs => !xs.isEmpty
  | .obj kvs => !kvs.isEmpty

/-- Python `dict.get` on a JSON object's field list. -/
def jget (kvs : List (List Char × Json)) (k : List Char) : Option Json :=
  (kvs.find? (fun kv => kv.1 == k)).map (·.2)

mutual

/-- Python `repr` of a JSON-shaped value (used by `str` on containers). -/
def pyRepr : Json → List Char
  | .null => sl "None"
  | .bool true => sl "True"
  | .bool false => sl "False"
  | .int n => intToStr n
  | .str s => '\'' :: (s ++ ['\''])
  | .arr xs => '[' :: (pyReprElems xs ++ [']'])
  | .obj kvs => '\x7b' :: (pyReprFields kvs ++ ['\x7d'])

def pyReprElems : List Json → List Char
  | [] => []
  | [x] => pyRepr x
  | x :: xs => pyRepr x ++ sl ", " ++ pyReprElems xs

def pyReprFields : List (List Char × Json) → List Char
  | [] => []
  | [kv] => '\'' :: (kv.1 ++ ['\'']) ++ sl ": " ++ pyRepr kv.2
  | kv :: kvs => '\'' :: (kv.1 ++ ['\'']) ++ sl ": " ++ pyRepr kv.2 ++ sl ", " ++ pyReprFields kvs

end

/-- Python `str` of a JSON-shaped value. -/
def pyStr : Json → List Char
  | .str s => s
  | j => pyRepr j

/-! ## `backend/app/payments/kiwify.py` -/

/-- Replace the `"data"` / `"payload"` field of a dict by its parsed value
when the field holds a JSON string that parses (the inner loop of
`_normalize_payload`). -/
def expandKey (loads : List Char → Option Json) (kvs : List (List Char × Json))
    (k : List Char) : List (List Char × Json) :=
  kvs.map (fun kv =>
    if kv.1 == k then
      match kv.2 with
      | .str s => match loads s with
                  | some j => (kv.1, j)
                  | none => kv
      | _ => kv
    else kv)

/-- `_normalize_payload`: a JSON string is parsed; a list collapses to its
first element when that is a dict; the `data` / `payload` fields of a dict
are expanded when they are JSON strings. -/
def _normalize_payload (loads : List Char → Option Json) (payload : Json) : Json :=
  let p1 : Json := match payload with
            | .str s => match loads s with
                        | some j => j
                        | none => payload
            | _ => payload
  let p2 : Json := match p1 with
            | .arr (first :: rest) =>
                match first with
                | .obj kvs => .obj kvs
                | _ => .arr (first :: rest)
            | _ => p1
  match p2 with
  | .obj kvs => .obj (expandKey loads (expandKey loads kvs (sl "data")) (sl "payload"))
  | _ => p2

/-- `_dig`: safe nested key access; `none` when a level is missing or not a
dict. -/
def _dig : Json → List (List Char) → Option Json
  | j, [] => some j
  | .obj kvs, k :: ks =>
      match jget kvs k with
      | some v => _dig v ks
      | none => none
  | _, _ :: _ => none

/-- `_norm`: `str(value or "").strip().lower()`, with `none` standing for a
missing key / Python `None`. -/
def _norm (v : Option Json) : List Char :=
  let s := match v with
           | some j => if pyTruthy j then pyStr j else []
           | none => []
  lowerStr (pyStrip s)

/-- `_as_email`: `None` unless the value is a string whose
stripped-and-lowercased form contains both `@` and `.`. -/
def _as_email (v : Option Json) : Option (List Char) :=
  match v with
  | some (.str s) =>
      if s.isEmpty then none
      else if (lowerStr (pyStrip s)).contains '@' && (lowerStr (pyStrip s)).contains '.'
      then some (lowerStr (pyStrip s))
      else none
  | _ => none

/-- `_candidate_values`: the status-like fields inspected by the webhook
classifiers, in source order. -/
def _candidate_values (kvs : List (List Char × Json)) : List (List Char) :=
  [ _norm (jget kvs (sl "status")),
    _norm (jget kvs (sl "sale_status")),
    _norm (jget kvs (sl "event")),
    _norm (jget kvs (sl "type")),
    _norm (jget kvs (sl "name")),
    _norm (jget kvs (sl "action")),
    _norm (_dig (.obj kvs) [sl "order", sl "status"]),
    _norm (_dig (.obj kvs) [sl "data", sl "status"]),
    _norm (_dig (.obj kvs) [sl "purchase", sl "status"]),
    _norm (_dig (.obj kvs) [sl "payment", sl "status"]),
    _norm (_dig (.obj kvs) [sl "transaction", sl "status"]),
    _norm (_dig (.obj kvs) [sl "subscription", sl "status"]),
    _norm (_dig (.obj kvs) [sl "data", sl "subscription_status"]),
    _norm (_dig (.obj kvs) [sl "data", sl "event"]),
    _norm (_dig (.obj kvs) [sl "data", sl "type"]) ]

/-- The `bad_values` set of `is_payment_refunded_or_chargeback`. -/
def badValues : List (List Char) :=
  [sl "refunded", sl "refund", sl "chargeback", sl "charged_back", sl "chargedback",
   sl "dispute", sl "canceled", sl "cancelled", sl "cancel", sl "voided", sl "failed",
   sl "declined", sl "denied", sl "reversed", sl "reversal", sl "expired", sl "unpaid"]

/-- The per-candidate test of `is_payment_refunded_or_chargeback`'s loop
(`if not c: continue` plus the three negative checks). -/
def isBadCandidate (c : List Char) : Bool :=
  !c.isEmpty &&
    (badValues.contains c
      || endsWithL (sl ".refunded") c || endsWithL (sl ".chargeback") c
      || endsWithL (sl ".canceled") c || endsWithL (sl ".cancelled") c
      || endsWithL (sl ":refunded") c || endsWithL (sl ":chargeback") c
      || endsWithL (sl ":canceled") c || endsWithL (sl ":cancelled") c
      || strIn (sl "chargeback") c || strIn (sl "refunded") c || strIn (sl "cancel") c)

/-- Truthiness of a possibly-missing field (`bool(payload.get(k))`). -/
def pyTruthyOpt : Option Json → Bool
  | none => false
  | some j => pyTruthy j

/-- Body of `is_payment_refunded_or_chargeback` once the payload is known to
be a dict. -/
def refundedCore (kvs : List (List Char × Json)) : Bool :=
  (_candidate_values kvs).any isBadCandidate
    || pyTruthyOpt (jget kvs (sl "refunded"))
    || pyTruthyOpt (jget kvs (sl "chargeback"))

/-- `is_payment_refunded_or_chargeback`. -/
def is_payment_refunded_or_chargeback (loads : List Char → Option Json)
    (payload : Json) : Bool :=
  match _normalize_payload loads payload with
  | .obj kvs => refundedCore kvs
  | _ => false

/-- The `ok_values` set of `is_payment_approved`. -/
def okValues : List (List Char) :=
  [sl "approved", sl "paid", sl "payment_approved", sl "payment-approved",
   sl "payment.approved", sl "completed", sl "success", sl "succeeded", sl "confirmed",
   sl "paid_out", sl "paidout", sl "subscription_paid", sl "subscription.paid",
   sl "subscription_approved", sl "subscription.approved", sl "recurring_payment_approved",
   sl "recurring.payment_approved", sl "renewed", sl "subscription_renewed",
   sl "subscription.renewed"]

/-- The per-candidate test of `is_payment_approved`'s loop. -/
def isOkCandidate (c : List Char) : Bool :=
  !c.isEmpty &&
    (okValues.contains c
      || endsWithL (sl ".approved") c || endsWithL (sl ".paid") c
      || endsWithL (sl ".succeeded") c || endsWithL (sl ".completed") c
      || endsWithL (sl ":approved") c || endsWithL (sl ":paid") c
      || endsWithL (sl ":succeeded") c || endsWithL (sl ":completed") c)

/-- The explicit boolean-flag check of `is_payment_approved`
(`payload.get("approved") is True or payload.get("paid") is True`). -/
def approvedFlag (kvs : List (List Char × Json)) : Bool :=
  (match jget kvs (sl "approved") with
   | some (.bool true) => true
   | _ => false) ||
  (match jget kvs (sl "paid") with
   | some (.bool true) => true
   | _ => false)

/-- `is_payment_approved`. -/
def is_payment_approved (loads : List Char → Option Json) (payload : Json) : Bool :=
  match _normalize_payload loads payload with
  | .obj kvs =>
      if is_payment_refunded_or_chargeback loads (.obj kvs) then false
      else approvedFlag kvs || (_candidate_values kvs).any isOkCandidate
  | _ => false

/-- The e-mail search paths of `extract_buyer_email`, in source order. -/
def emailPaths : List (List (List Char)) :=
  [ [sl "customer", sl "email"],
    [sl "customer", sl "email_address"],
    [sl "buyer", sl "email"],
    [sl "buyer", sl "email_address"],
    [sl "user", sl "email"],
    [sl "user", sl "email_address"],
    [sl "order", sl "customer", sl "email"],
    [sl "order", sl "customer", sl "email_address"],
    [sl "order", sl "buyer", sl "email"],
    [sl "order", sl "buyer", sl "email_address"],
    [sl "data", sl "customer", sl "email"],
    [sl "data", sl "customer", sl "email_address"],
    [sl "data", sl "buyer", sl "email"],
    [sl "data", sl "buyer", sl "email_address"],
    [sl "purchase", sl "customer", sl "email"],
    [sl "purchase", sl "customer", sl "email_address"],
    [sl "purchase", sl "buyer", sl "email"],
    [sl "purchase", sl "buyer", sl "email_address"],
    [sl "subscription", sl "customer", sl "email"],
    [sl "subscription", sl "customer", sl "email_address"],
    [sl "data", sl "subscription", sl "customer", sl "email"],
    [sl "data", sl "subscription", sl "customer", sl "email_address"],
    [sl "data", sl "email"],
    [sl "data", sl "email_address"] ]

/-- The path loop of `extract_buyer_email`. -/
def firstEmail (kvs : List (List Char × Json)) : List (List (List Char)) → Option (List Char)
  | [] => none
  | p :: ps =>
      match _as_email (_dig (.obj kvs) p) with
      | some e => some e
      | none => firstEmail kvs ps

/-- `extract_buyer_email`. -/
def extract_buyer_email (loads : List Char → Option Json) (payload : Json) :
    Option (List Char) :=
  match _normalize_payload loads payload with
  | .obj kvs =>
      match firstEmail kvs emailPaths with
      | some e => some e
      | none =>
          match _as_email (jget kvs (sl "email")) with
          | some e => some e
          | none => _as_email (jget kvs (sl "email_address"))
  | _ => none

/-! ## `backend/app/services/proposal_generator.py`

The `re.sub` patterns in this module all have the shape
"`(?:^|\n)` ⟨line-head pattern⟩ `.*$`" with `DOTALL`, so each of them removes
everything from the first position where the line-head pattern matches to the
end of the string.  They are embedded as explicit character-level matchers
that reproduce the regex semantics (the optional groups all start with
characters disjoint from what can follow them, so greedy matching is
deterministic; the trailing `.*$` always succeeds). -/

def NEXT_STEPS_BLOCK : List Char :=
  sl "Próximos passos\n- Aprovação desta proposta\n- Confirmação das condições comerciais\n- Agendamento da reunião inicial"

def AUTHORITY_BLOCK : List Char :=
  sl "Autoridade\nCom experiência em criação de peças estratégicas voltadas para posicionamento e conversão, desenvolvo criativos que unem estética e resultado."

/-- Step 1 of `_normalize`: `t.replace("\r\n", "\n")`. -/
def replaceCRLF : List Char → List Char
  | '\r' :: '\n' :: cs => '\n' :: replaceCRLF cs
  | c :: cs => c :: replaceCRLF cs
  | [] => []

/-- Step 2 of `_normalize`: stray `\r` becomes `\n`, `\xa0` a space. -/
def fixChar (c : Char) : Char :=
  if c = '\r' then '\n' else if c = '\u00A0' then ' ' else c

/-- Step 3 of `_normalize`: drop the BOM and the zero-width characters. -/
def keepChar (c : Char) : Bool :=
  !(c = '\uFEFF' || c = '\u200B' || c = '\u200C' || c = '\u200D' || c = '\u2060')

/-- `_normalize`: normalize line endings, turn `\xa0` into a space, and drop
the BOM / zero-width characters. -/
def pyNormalize (t : List Char) : List Char :=
  ((replaceCRLF t).map fixChar).filter keepChar

/-- Consume `\d+` (at least one digit, then the rest of the digit run). -/
def matchDigits1 : List Char → Option (List Char)
  | c :: cs => if c.isDigit then some (cs.dropWhile Char.isDigit) else none
  | [] => none

/-- Group `(\d+\.\s*)?` of the heading pattern: digits followed by a dot
consume, anything else leaves the text unchanged. -/
def headDigitsGroup (t : List Char) : List Char :=
  match matchDigits1 t with
  | some (c :: r) => if c = '.' then r.dropWhile isPySpace else t
  | _ => t

/-- Group `(\*\*)?` of the heading pattern. -/
def headBoldGroup (t : List Char) : List Char :=
  match t with
  | c1 :: c2 :: r => if c1 = '*' ∧ c2 = '*' then r else t
  | _ => t

/-- Group `(##\s*)?` of the heading pattern. -/
def headHashGroup (t : List Char) : List Char :=
  match t with
  | c1 :: c2 :: r => if c1 = '#' ∧ c2 = '#' then r.dropWhile isPySpace else t
  | _ => t

/-- Line-head pattern of `remove_next_steps_and_below`'s regex:
`\s*(\d+\.\s*)?(\*\*)?(##\s*)?próximos passos` (case-insensitive; the tail
`\s*:?.*$` always matches). -/
def headingCore (cs : List Char) : Bool :=
  (matchCI (sl "próximos passos")
    (headHashGroup (headBoldGroup (headDigitsGroup (cs.dropWhile isPySpace))))).isSome

/-- Scan for the first interior match of `(?:^|\n)` + `headingCore` and drop
from (and including) its `\n` to the end. -/
def cutHeadingTail : List Char → List Char
  | [] => []
  | c :: cs => if c = '\n' && headingCore cs then [] else c :: cutHeadingTail cs

/-- Effect of `re.sub` with the `próximos passos` pattern: everything from the
first matching line start to the end of the string is removed. -/
def cutHeading (cs : List Char) : List Char :=
  if headingCore cs then [] else cutHeadingTail cs

/-- `remove_next_steps_and_below`. -/
def remove_next_steps_and_below (text : List Char) : List Char :=
  if text.isEmpty then []
  else pyStrip (cutHeading (pyNormalize text))

/-- Does the text contain a line-initial `próximos passos` heading (a match
of `remove_next_steps_and_below`'s pattern)? -/
def hasHeadingTail : List Char → Bool
  | [] => false
  | c :: cs => (c = '\n' && headingCore cs) || hasHeadingTail cs

def hasHeading (cs : List Char) : Bool :=
  headingCore cs || hasHeadingTail cs

/-- Python `\w` on the alphabets in play (ASCII word characters plus the
Latin-1 letters of the Portuguese texts). -/
def isWordChar (c : Char) : Bool :=
  c.isAlpha || c.isDigit || c = '_' ||
    (192 ≤ c.toNat && c.toNat ≤ 255 && !(c.toNat = 215) && !(c.toNat = 247))

/-- One signature keyword followed by a word boundary: the keyword matches
case-insensitively and the next character is absent or a non-word character
(this also covers `att\.?`, since `.` is itself a non-word character). -/
def sigKw (pat t : List Char) : Bool :=
  match matchCI pat t with
  | some [] => true
  | some (c :: _) => !isWordChar c
  | none => false

/-- Line-head pattern of the signature-removal regex in
`sanitize_proposal_text`:
`\s*(atenciosamente|cordialmente|assinado|att\.?)\b` (the tail `.*$` always
matches). -/
def sigCore (cs : List Char) : Bool :=
  let t := cs.dropWhile isPySpace
  sigKw (sl "atenciosamente") t || sigKw (sl "cordialmente") t ||
    sigKw (sl "assinado") t || sigKw (sl "att") t

def cutSigTail : List Char → List Char
  | [] => []
  | c :: cs => if c = '\n' && sigCore cs then [] else c :: cutSigTail cs

/-- Effect of `re.sub` with the signature pattern. -/
def cutSig (cs : List Char) : List Char :=
  if sigCore cs then [] else cutSigTail cs

/-- Effect of `re.sub(r"\[.*?\]", "", t, flags=re.DOTALL)`: each `[` with a
later `]` is removed together with everything up to the nearest `]`; the
flag is true while inside such a span. -/
def stripBrGo : Bool → List Char → List Char
  | _, [] => []
  | false, c :: cs =>
      if c = '[' && cs.contains ']' then stripBrGo true cs
      else c :: stripBrGo false cs
  | true, c :: cs =>
      if c = ']' then stripBrGo false cs else stripBrGo true cs

/-- Effect of `re.sub(r"\n{3,}", "\n\n", t)`: `k` counts the pending run of
newlines; a run of three or more collapses to two. -/
def collapseNlGo : Nat → List Char → List Char
  | k, [] => List.replicate (if 3 ≤ k then 2 else k) '\n'
  | k, '\n' :: cs => collapseNlGo (k + 1) cs
  | k, c :: cs => List.replicate (if 3 ≤ k then 2 else k) '\n' ++ c :: collapseNlGo 0 cs

def collapseNl (cs : List Char) : List Char := collapseNlGo 0 cs

/-- Python `str.rstrip(" \n\r-—•")`. -/
def rstripSet (cs : List Char) : List Char :=
  List.rdropWhile
    (fun c => c = ' ' || c = '\n' || c = '\r' || c = '-' || c = '—' || c = '•') cs

/-- `sanitize_proposal_text`. -/
def sanitize_proposal_text (text : List Char) : List Char :=
  if text.isEmpty then []
  else
    let t1 := pyStrip (pyNormalize text)
    let t2 := pyStrip (stripBrGo false t1)
    let t3 := pyStrip (cutSig t2)
    let t4 := rstripSet t3
    pyStrip (collapseNl t4)

/-- `apply_next_steps`. -/
def apply_next_steps (text : List Char) : List Char :=
  let base := sanitize_proposal_text (remove_next_steps_and_below text)
  if base.isEmpty then NEXT_STEPS_BLOCK
  else base ++ sl "\n\n" ++ NEXT_STEPS_BLOCK

/-- Tail `(?:\s*(?:\*\*)?)\s*$` of the `Autoridade` heading pattern: skipping
whitespace must reach a newline or the end, possibly after a literal `**`. -/
def endNlOk : List Char → Bool
  | [] => true
  | c :: cs => if c = '\n' then true else if isPySpace c then endNlOk cs else false

def authTailOk (rest : List Char) : Bool :=
  endNlOk rest ||
    (match rest.dropWhile isPySpace with
     | '*' :: '*' :: r => endNlOk r
     | _ => false)

/-- Line-head part of `authority_heading_pattern`:
`^\s*(\d+[\.\)]\s*)?(##\s*)?(\*\*)?\s*autoridade` (case-insensitive), then
`authTailOk` for the end of the line. -/
def authHeadCore (cs : List Char) : Bool :=
  let t1 := cs.dropWhile isPySpace
  let t2 := match matchDigits1 t1 with
            | some ('.' :: r) => r.dropWhile isPySpace
            | some (')' :: r) => r.dropWhile isPySpace
            | _ => t1
  let t3 := match t2 with
            | '#' :: '#' :: r => r.dropWhile isPySpace
            | _ => t2
  let t4 := match t3 with
            | '*' :: '*' :: r => r
            | _ => t3
  match matchCI (sl "autoridade") (t4.dropWhile isPySpace) with
  | some rest => authTailOk rest
  | none => false

def authHeadTail : List Char → Bool
  | [] => false
  | c :: cs => (c = '\n' && authHeadCore cs) || authHeadTail cs

/-- `authority_heading_pattern.search(t)` succeeds. -/
def authHeadFound (cs : List Char) : Bool :=
  authHeadCore cs || authHeadTail cs

/-- `diagn[oó]stico\s*(?:e|&)\s*contexto` (case-insensitive) matches at the
head of `cs`. -/
def diagCore (cs : List Char) : Bool :=
  match matchCI (sl "diagn") cs with
  | none => false
  | some r =>
      match r with
      | c :: r2 =>
          if lowerChar c = 'o' || lowerChar c = 'ó' then
            match matchCI (sl "stico") r2 with
            | none => false
            | some r3 =>
                match r3.dropWhile isPySpace with
                | c2 :: r5 =>
                    if lowerChar c2 = 'e' || c2 = '&' then
                      (matchCI (sl "contexto") (r5.dropWhile isPySpace)).isSome
                    else false
                | [] => false
          else false
      | [] => false

/-- `diag_line_pattern` matches at this line start: some offset reachable
through non-newline characters (the `[^\n]*` prefix) starts a `diagCore`
match (the trailing `[^\n]*$` always succeeds). -/
def diagInLine : List Char → Bool
  | [] => false
  | c :: cs => if c = '\n' then false else diagCore (c :: cs) || diagInLine cs

/-- Interior part of `diag_line_pattern.search`: find the first `\n` whose
following line matches, returning the prefix (including that `\n`) and the
suffix (the matching line start). -/
def findDiagTail : List Char → Option (List Char × List Char)
  | [] => none
  | c :: cs =>
      if c = '\n' && diagInLine cs then some ([c], cs)
      else match findDiagTail cs with
           | some (pre, suf) => some (c :: pre, suf)
           | none => none

/-- `diag_line_pattern.search(t)`: split `t` at `m.start()` (the start of the
first line containing the diagnosis heading). -/
def findDiag (cs : List Char) : Option (List Char × List Char) :=
  if diagInLine cs then some ([], cs) else findDiagTail cs

/-- `authority_block_key`: the fixed block, normalized, stripped and
lowercased. -/
def authKey : List Char := lowerStr (pyStrip (pyNormalize AUTHORITY_BLOCK))

/-- The inserted form: the text before the diagnosis line (right-stripped),
the fixed block, and the diagnosis line onwards (its leading newlines
stripped), joined by blank lines and stripped. -/
def authInsert (pre suf : List Char) : List Char :=
  pyStrip (rstripWs pre ++ sl "\n\n" ++ AUTHORITY_BLOCK ++ sl "\n\n" ++ lstripNl suf)

/-- `apply_authority_before_diagnosis`. -/
def apply_authority_before_diagnosis (text : List Char) : List Char :=
  if text.isEmpty then text
  else if !authKey.isEmpty && strIn authKey (lowerStr (pyNormalize text)) then
    pyNormalize text
  else if authHeadFound (pyNormalize text) then pyNormalize text
  else
    match findDiag (pyNormalize text) with
    | none => pyNormalize text
    | some (pre, suf) => authInsert pre suf

/-- `apply_scope_guardrails`. -/
def apply_scope_guardrails (text scope : List Char) : List Char :=
  if scope.isEmpty then text
  else if strIn (sl "O que está incluso:") text || strIn (sl "O que NÃO está incluso:") text then
    text
  else
    let block :=
      sl "O que está incluso:\n- " ++ pyStrip scope ++
      sl "\n\nO que NÃO está incluso:\n- Demandas fora do escopo descrito acima\n- Custos externos, licenças ou investimentos de terceiros\n- Solicitações fora do fluxo acordado\n\nDependências do cliente:\n- Envio de informações e aprovações dentro do prazo acordado\n"
    text ++ sl "\n\n" ++ block

/-- The three revision-policy blocks of `apply_revision_policy`
(`revisions = 2` interpolated). -/
def revisionBlockFormal : List Char :=
  sl "Política de revisões:\n- Estão inclusas até 2 rodadas de ajustes dentro do escopo contratado\n- Ajustes adicionais poderão ser orçados separadamente\n"

def revisionBlockAmigavel : List Char :=
  sl "Revisões:\n- Até 2 rodadas de ajustes inclusas\n- Ajustes extras podem ser combinados posteriormente\n"

def revisionBlockDireto : List Char :=
  sl "Revisões:\n- Até 2 rodadas de ajustes dentro do escopo\n- Demandas adicionais serão avaliadas à parte\n"

/-- `apply_revision_policy`. -/
def apply_revision_policy (text tone : List Char) : List Char :=
  if strIn (sl "Revisões:") text || strIn (sl "Política de revisões:") text then text
  else
    let key := lowerStr tone
    let block :=
      if key = sl "formal" then revisionBlockFormal
      else if key = sl "amigável" then revisionBlockAmigavel
      else if key = sl "direto" then revisionBlockDireto
      else revisionBlockDireto
    text ++ sl "\n\n" ++ block

/-- `apply_value_framing` (the `objective` argument is unused by the code). -/
def apply_value_framing (text price objective : List Char) : List Char :=
  if price.isEmpty then text
  else
    let frame :=
      sl "O investimento mensal de " ++ price ++
      sl " está diretamente relacionado à responsabilidade estratégica, gestão contínua e acompanhamento próximo necessários para a execução consistente do escopo proposto."
    if !strIn (lowerStr frame) (lowerStr text) then text ++ sl "\n\n" ++ frame
    else text

def closingFormal : List Char :=
  sl "Após a aprovação desta proposta, serão alinhados os próximos passos para início da execução."

def closingAmigavel : List Char :=
  sl "Com a aprovação da proposta, já é possível alinhar o início do trabalho."

def closingDireto : List Char :=
  sl "Com a aprovação desta proposta, a execução poderá ser iniciada."

/-- `apply_smart_closing`. -/
def apply_smart_closing (text tone : List Char) : List Char :=
  let key := lowerStr tone
  let closing :=
    if key = sl "formal" then closingFormal
    else if key = sl "amigável" then closingAmigavel
    else if key = sl "direto" then closingDireto
    else closingDireto
  if strIn (lowerStr closing) (lowerStr text) then text
  else text ++ sl "\n\n" ++ closing

/-- The proposal-creation input dict (`data` in `create_action`); every key
is always present, so the dict is a record of strings. -/
structure PData where
  client_name : List Char := []
  service : List Char := []
  scope : List Char := []
  deadline : List Char := []
  price : List Char := []
  payment_terms : List Char := []
  differentiators : List Char := []
  warranty_support : List Char := []
  tone : List Char := []
  objective : List Char := []
deriving Repr

/-- `_stub_generate`. -/
def stub_generate (data : PData) : List Char :=
  let service := pyStrip (if (data.service).isEmpty then sl "Serviço" else data.service)
  sl "Proposta Comercial\n\nEsta proposta foi elaborada para estruturar e profissionalizar a prestação do serviço de " ++
  service ++
  sl ", com foco em clareza de escopo, previsibilidade operacional e responsabilidade sobre a entrega.\n\n1. Diagnóstico e contexto\nEste documento descreve o contexto, objetivo e entregáveis para execução do serviço.\n\n2. Objetivo\nDefinir o que será entregue e qual o resultado esperado.\n\n3. Escopo por entregáveis\nLista de entregas previstas conforme o escopo."

/-- Replacement text of the surgical `re.sub` on the objective sentence in
`generate_proposal_text`. -/
def OBJ_REPL : List Char :=
  sl "O objetivo deste serviço é assumir a responsabilidade estratégica e operacional da entrega, transformando investimento em ações executáveis e resultados mensuráveis."

/-- The (lowercased) literal head of the pattern `O objetivo é .*?\.`
(13 characters). -/
def OBJ_PAT : List Char := sl "o objetivo é "

/-- Effect of `re.sub(r"O objetivo é .*?\.", OBJ_REPL, raw, IGNORECASE | DOTALL)`:
when `skip > 0` we are consuming the 13 literal pattern characters; when
`dotScan` is set we are consuming the minimal `.*?\.` span. -/
def objGo : Nat → Bool → List Char → List Char
  | Nat.succ k, dotScan, _ :: cs => objGo k dotScan cs
  | Nat.succ _, _, [] => []
  | 0, true, c :: cs => if c = '.' then objGo 0 false cs else objGo 0 true cs
  | 0, true, [] => []
  | 0, false, [] => []
  | 0, false, c :: cs =>
      if (matchCI OBJ_PAT (c :: cs)).isSome && ((c :: cs).drop 13).contains '.' then
        OBJ_REPL ++ objGo 12 true cs
      else c :: objGo 0 false cs

def objetivoSub (cs : List Char) : List Char := objGo 0 false cs

/-- `generate_proposal_text`.  `mode` models `settings.ai_mode`; `gptGen`
models `generate_with_gpt` (only consulted when the mode is `"gpt"`). -/
def generate_proposal_text (mode : List Char) (gptGen : PData → List Char)
    (data : PData) : List Char :=
  let m := lowerStr (if mode.isEmpty then sl "stub" else mode)
  let raw := if m = sl "gpt" then gptGen data else stub_generate data
  let raw := objetivoSub raw
  let raw := apply_authority_before_diagnosis raw
  let raw := apply_scope_guardrails raw data.scope
  let raw := apply_revision_policy raw data.tone
  let raw := apply_value_framing raw data.price data.objective
  let raw := apply_smart_closing raw data.tone
  apply_next_steps raw

/-! ## Database rows (`backend/app/db/models.py`)

Rows carry the columns the embedded code reads or writes.  Timestamps are
`Nat` instants. -/

structure UserRow where
  id : Int
  email : List Char
  is_paid : Bool
  plan : List Char
  monthly_quota_used : Nat
  quota_reset_at : Option Nat
deriving Repr, DecidableEq

structure ProposalRow where
  id : Int
  user_id : Int
  client_name : List Char
  service : List Char
  price : List Char
  deadline : List Char
  tone : List Char
  objective : List Char
  input_summary : List Char
  proposal_text : List Char
  created_at : Nat
deriving Repr, DecidableEq

structure WebhookEventRow where
  event_id : List Char
  event_type : List Char
  processed_at : Nat
deriving Repr, DecidableEq

structure DB where
  users : List UserRow
  proposals : List ProposalRow
  webhook_events : List WebhookEventRow
deriving Repr, DecidableEq

/-- Apply an update to the user row with the given id (the effect of an ORM
commit / an `UPDATE users ... WHERE id = :uid`). -/
def updateUser (db : DB) (uid : Int) (f : UserRow → UserRow) : DB :=
  { db with users := db.users.map (fun u => if u.id == uid then f u else u) }

/-! ## `backend/app/auth/routes.py` (the parts the claims use) -/

/-- Python `int(s)` on a string (`ValueError` = `none`). -/
def digitsToNat : List Char → Option Nat
  | [] => none
  | ds => if ds.all Char.isDigit
          then some (ds.foldl (fun a c => a * 10 + (c.toNat - 48)) 0)
          else none

def pyIntParse (s : List Char) : Option Int :=
  match pyStrip s with
  | '+' :: ds => (digitsToNat ds).map Int.ofNat
  | '-' :: ds => (digitsToNat ds).map (fun n => -(n : Int))
  | ds => (digitsToNat ds).map Int.ofNat

/-- `get_current_user`.  `decode` models `decode_access_token` plus the
`payload.get("sub")` read: `none` is an absent / invalid / expired token and
`some sub` the `"sub"` claim, which `create_access_token` always sets to
`str(user_id)` (an empty `sub` also models a payload without the claim,
which the code treats the same way). -/
def get_current_user (decode : List Char → Option (List Char))
    (cookie : Option (List Char)) (users : List UserRow) : Option UserRow :=
  match cookie with
  | none => none
  | some token =>
      match decode token with
      | none => none
      | some sub =>
          if sub.isEmpty then none
          else match pyIntParse sub with
               | none => none
               | some uid => users.find? (fun u => u.id == uid)

/-! ## `backend/app/routes.py` -/

def FREE_MONTHLY_LIMIT : Nat := 2

/-- The responses the embedded routes can produce. -/
inductive Response where
  | redirect (url : List Char) (status : Nat)
  | templateProposal (name : List Char) (p : ProposalRow)
  | templateList (name : List Char) (ps : List ProposalRow)
  | pdfFile (content : List Char)
deriving Repr, DecidableEq

def redirectLogin : Response := .redirect (sl "/login") 303

/-- `_redirect_paywall` (reason is always passed at the call sites used
here). -/
def redirectPaywall (reason : List Char) : Response :=
  .redirect (sl "/paywall?reason=" ++ reason) 303

/-- Result row of `_fetch_user_plan_and_quota`'s SQL (with the `COALESCE`
defaults applied). -/
structure QuotaInfo where
  plan : List Char
  monthly_quota_used : Nat
  quota_reset_at : Option Nat
deriving Repr, DecidableEq

/-- `_fetch_user_plan_and_quota`. -/
def _fetch_user_plan_and_quota (db : DB) (uid : Int) : QuotaInfo :=
  match db.users.find? (fun u => u.id == uid) with
  | none => { plan := sl "free", monthly_quota_used := 0, quota_reset_at := none }
  | some u =>
      { plan := lowerStr (pyStrip (if u.plan.isEmpty then sl "free" else u.plan)),
        monthly_quota_used := u.monthly_quota_used,
        quota_reset_at := u.quota_reset_at }

/-- The reset condition of `_maybe_reset_monthly_quota`: no reset timestamp,
or the timestamp has passed. -/
def quotaResetDue (now : Nat) (reset_at : Option Nat) : Bool :=
  match reset_at with
  | none => true
  | some r => decide (r ≤ now)

/-- The row update of the quota reset (`monthly_quota_used = 0`,
`quota_reset_at = first day of next month`). -/
def resetRow (firstDayNextMonth : Nat → Nat) (now : Nat) (u : UserRow) : UserRow :=
  { u with monthly_quota_used := 0, quota_reset_at := some (firstDayNextMonth now) }

/-- `_maybe_reset_monthly_quota`; `firstDayNextMonth` models
`_first_day_next_month_utc` on the abstract clock. -/
def _maybe_reset_monthly_quota (firstDayNextMonth : Nat → Nat) (now : Nat)
    (db : DB) (uid : Int) (info : QuotaInfo) : QuotaInfo × DB :=
  if !quotaResetDue now info.quota_reset_at then (info, db)
  else
    ({ info with monthly_quota_used := 0, quota_reset_at := some (firstDayNextMonth now) },
     updateUser db uid (resetRow firstDayNextMonth now))

/-- `_is_pro_user`. -/
def _is_pro_user (u : UserRow) (plan : List Char) : Bool :=
  u.is_paid || lowerStr (if plan.isEmpty then sl "free" else plan) == sl "pro"

/-- The `meta` dict returned by `_check_free_quota_or_redirect`. -/
structure QuotaMeta where
  plan : List Char
  used : Nat
  limit : Option Nat
deriving Repr, DecidableEq

/-- `_check_free_quota_or_redirect`. -/
def _check_free_quota_or_redirect (firstDayNextMonth : Nat → Nat) (now : Nat)
    (db : DB) (user : UserRow) (reason : List Char) :
    (Bool × Option Response × QuotaMeta) × DB :=
  match _maybe_reset_monthly_quota firstDayNextMonth now db user.id
      (_fetch_user_plan_and_quota db user.id) with
  | (info, db2) =>
      if _is_pro_user user info.plan then
        ((true, none,
          { plan := sl "pro", used := info.monthly_quota_used, limit := none }), db2)
      else if FREE_MONTHLY_LIMIT ≤ info.monthly_quota_used then
        ((false, some (redirectPaywall reason),
          { plan := sl "free", used := info.monthly_quota_used,
            limit := some FREE_MONTHLY_LIMIT }), db2)
      else
        ((true, none,
          { plan := sl "free", used := info.monthly_quota_used,
            limit := some FREE_MONTHLY_LIMIT }), db2)

/-- The row update of `_increment_free_quota`'s SQL: increment
`monthly_quota_used` on the row with the given id whose plan is exactly
`'free'` (with the `COALESCE` defaults) and which is not paid. -/
def incFreeRow (uid : Int) (u : UserRow) : UserRow :=
  if u.id == uid && (if u.plan.isEmpty then sl "free" else u.plan) == sl "free"
      && u.is_paid == false
  then { u with monthly_quota_used := u.monthly_quota_used + 1 }
  else u

/-- `_increment_free_quota` (the SQL `UPDATE ... WHERE id = :uid AND
COALESCE(plan,'free') = 'free' AND COALESCE(is_paid,false) = false`). -/
def _increment_free_quota (db : DB) (uid : Int) : DB :=
  { db with users := db.users.map (incFreeRow uid) }

/-- `_finalize_proposal_text`. -/
def _finalize_proposal_text (text : List Char) : List Char :=
  apply_next_steps (sanitize_proposal_text text)

/-- `_build_input_summary`. -/
def _build_input_summary (data : PData) : List Char :=
  let summary := pyStrip
    (sl "Cliente: " ++ pyStrip data.client_name ++
     sl " | Serviço: " ++ pyStrip data.service ++
     sl " | Escopo: " ++ pyStrip data.scope ++
     sl " | Valor: " ++ pyStrip data.price ++
     sl " | Prazo: " ++ pyStrip data.deadline ++
     sl " | Tom: " ++ pyStrip data.tone ++
     sl " | Objetivo: " ++ pyStrip data.objective)
  if summary.isEmpty then sl "Resumo indisponível" else summary

/-- SQL autoincrement: a fresh primary key for the proposals table. -/
def freshProposalId (ps : List ProposalRow) : Int :=
  1 + ps.foldl (fun a p => max a p.id) 0

/-- The text stored by `create_action`: the OpenAI text when the call
produced something truthy, otherwise the local generator's output, always
passed through `_finalize_proposal_text`. -/
def createdText (mode : List Char) (gptGen : PData → List Char)
    (openai : Option (List Char)) (data : PData) : List Char :=
  _finalize_proposal_text
    (match openai with
     | some t => if !t.isEmpty then t else generate_proposal_text mode gptGen data
     | none => generate_proposal_text mode gptGen data)

/-- The proposal row persisted by `create_action`. -/
def createdRow (user : UserRow) (now : Nat) (mode : List Char)
    (gptGen : PData → List Char) (openai : Option (List Char)) (data : PData)
    (db : DB) : ProposalRow :=
  { id := freshProposalId db.proposals,
    user_id := user.id,
    client_name := data.client_name,
    service := data.service,
    price := data.price,
    deadline := data.deadline,
    tone := data.tone,
    objective := data.objective,
    input_summary := _build_input_summary data,
    proposal_text := createdText mode gptGen openai data,
    created_at := now }

/-- The generation-and-persistence part of `create_action`, reached once the
quota gate passed (consumes one free use when the quota meta says the plan
is free). -/
def create_action_generate (user : UserRow) (now : Nat) (mode : List Char)
    (gptGen : PData → List Char) (openai : Option (List Char)) (data : PData)
    (quotaMeta : QuotaMeta) (db : DB) : Response × DB :=
  let db' := if quotaMeta.plan == sl "free" then _increment_free_quota db user.id
             else db
  (.templateProposal (sl "result.html")
      (createdRow user now mode gptGen openai data db'),
   { db' with proposals :=
       db'.proposals ++ [createdRow user now mode gptGen openai data db'] })

/-- `POST /create` (`create_action`), starting from the built `data` dict
(the form-field stripping and the one-click preset overlay that produce
`data` happen before any step a claim mentions).  `openai` models
`_generate_with_openai_if_available(data)`; `mode` and `gptGen` are the
proposal-generator settings. -/
def create_action (decode : List Char → Option (List Char))
    (cookie : Option (List Char)) (firstDayNextMonth : Nat → Nat) (now : Nat)
    (mode : List Char) (gptGen : PData → List Char)
    (openai : Option (List Char)) (data : PData) (db : DB) : Response × DB :=
  match get_current_user decode cookie db.users with
  | none => (redirectLogin, db)
  | some user =>
      match _check_free_quota_or_redirect firstDayNextMonth now db user (sl "quota") with
      | ((ok, redir, quotaMeta), db1) =>
          match ok, redir with
          | false, some r => (r, db1)
          | _, _ => create_action_generate user now mode gptGen openai data quotaMeta db1

/-- Insertion sort by descending id (the `ORDER BY proposals.id DESC`). -/
def insertByIdDesc (p : ProposalRow) : List ProposalRow → List ProposalRow
  | [] => [p]
  | q :: qs => if q.id ≤ p.id then p :: q :: qs else q :: insertByIdDesc p qs

def sortByIdDesc : List ProposalRow → List ProposalRow
  | [] => []
  | p :: ps => insertByIdDesc p (sortByIdDesc ps)

/-- `GET /history` (`history_page`). -/
def history_page (decode : List Char → Option (List Char))
    (cookie : Option (List Char)) (db : DB) : Response :=
  match get_current_user decode cookie db.users with
  | none => redirectLogin
  | some user =>
      .templateList (sl "history.html")
        ((sortByIdDesc (db.proposals.filter (fun p => p.user_id == user.id))).take 50)

/-- `GET /proposal/{proposal_id}` (`proposal_detail`). -/
def proposal_detail (decode : List Char → Option (List Char))
    (cookie : Option (List Char)) (proposal_id : Int) (db : DB) : Response :=
  match get_current_user decode cookie db.users with
  | none => redirectLogin
  | some user =>
      match db.proposals.find? (fun p => p.id == proposal_id && p.user_id == user.id) with
      | none => .redirect (sl "/history") 303
      | some p => .templateProposal (sl "proposal_detail.html") p

/-- `GET /proposal/{proposal_id}/pdf` (`proposal_pdf`); `buildPdf` models
`build_proposal_pdf`. -/
def proposal_pdf (decode : List Char → Option (List Char))
    (cookie : Option (List Char)) (buildPdf : ProposalRow → List Char)
    (proposal_id : Int) (db : DB) : Response :=
  match get_current_user decode cookie db.users with
  | none => redirectLogin
  | some user =>
      if !user.is_paid then redirectPaywall (sl "pdf")
      else
        match db.proposals.find? (fun p => p.id == proposal_id && p.user_id == user.id) with
        | none => .redirect (sl "/history") 303
        | some p => .pdfFile (buildPdf p)

/-! ## `backend/app/payments/routes.py` -/

/-- The environment of the webhook module (each value is read with
`(os.getenv(...) or "").strip()` for the PRO ids; the token is stripped at
use). -/
structure KiwifyEnv where
  webhookToken : List Char
  proProductId : List Char
  proOfferId : List Char
  proPlanId : List Char
deriving Repr

/-- An incoming webhook request: `receivedToken` is the header / query token
pick, `jsonBody` the result of `request.json()` (`none` = parse error),
`formBody` the `dict(form)` fallback, `rawLen` the raw body length used by
the no-id fallback event id. -/
structure WebhookRequest where
  receivedToken : Option (List Char)
  jsonBody : Option Json
  formBody : Option Json
  rawLen : Nat

/-- The JSON object returned by `kiwify_webhook` (all keys that any return
site sets; unset keys keep their defaults). -/
structure WebhookResp where
  ok : Bool
  ignored : Bool := false
  idempotent : Bool := false
  approved : Bool := false
  is_pro : Bool := false
  paid : Bool := false
  changed : Bool := false
  reason : List Char := []
  event : List Char := []
  email : Option (List Char) := none
  user_id : Option Int := none
  event_id : List Char := []
  debug_error : Bool := false
deriving Repr, DecidableEq

/-- `v not in (None, "", {}, [])` — the filter of `_pick`. -/
def isPickable : Json → Bool
  | .null => false
  | .str s => !s.isEmpty
  | .obj kvs => !kvs.isEmpty
  | .arr xs => !xs.isEmpty
  | _ => true

/-- `_pick`. -/
def _pick (kvs : List (List Char × Json)) : List (List Char) → Option Json
  | [] => none
  | k :: ks =>
      match jget kvs k with
      | some v => if isPickable v then some v else _pick kvs ks
      | none => _pick kvs ks

/-- `_nested`. -/
def _nested (kvs : List (List Char × Json)) : List (List Char × Json) :=
  match jget kvs (sl "data") with
  | some (.obj d) => d
  | _ =>
      match jget kvs (sl "payload") with
      | some (.obj d) => d
      | _ => kvs

/-- `_safe_int`. -/
def _safe_int : Option Json → Option Int
  | none => none
  | some .null => none
  | some (.bool _) => none
  | some (.int n) => some n
  | some v =>
      let s := pyStrip (pyStr v)
      if s.isEmpty then none else pyIntParse s

/-- `_safe_str`. -/
def _safe_str (v : Option Json) : List Char :=
  match v with
  | some j => if pyTruthy j then pyStrip (pyStr j) else []
  | none => []

/-- A sub-dict of the payload (`data.get(k)` when it is a dict). -/
def subDict (kvs : List (List Char × Json)) (k : List Char) :
    Option (List (List Char × Json)) :=
  match jget kvs k with
  | some (.obj d) => some d
  | _ => none

def trackKeys : List (List Char) := [sl "s1", sl "s2", sl "s3", sl "s4", sl "s5"]

def idKeys : List (List Char) := [sl "user_id", sl "customer_id", sl "external_id"]

def idKeysS1 : List (List Char) :=
  [sl "user_id", sl "customer_id", sl "external_id", sl "s1"]

/-- The repeated `order.*` / `buyer.*` stanza of
`_extract_user_id_from_payload`: custom_fields, then metadata, then
tracking. -/
def sectionUserId (data : List (List Char × Json)) (sec : List Char) : Option Int :=
  match subDict data sec with
  | none => none
  | some o =>
      match (match subDict o (sl "custom_fields") with
             | some m => _safe_int (_pick m idKeysS1)
             | none => none) with
      | some v => some v
      | none =>
          match (match subDict o (sl "metadata") with
                 | some m => _safe_int (_pick m idKeysS1)
                 | none => none) with
          | some v => some v
          | none =>
              match subDict o (sl "tracking") with
              | some tr => _safe_int (_pick tr trackKeys)
              | none => none

/-- `_extract_user_id_from_payload`. -/
def _extract_user_id_from_payload (data : List (List Char × Json)) : Option Int :=
  match (match subDict data (sl "tracking") with
         | some tr => _safe_int (_pick tr trackKeys)
         | none => none) with
  | some v => some v
  | none =>
  match _safe_int (_pick data trackKeys) with
  | some v => some v
  | none =>
  match _safe_int (_pick data idKeys) with
  | some v => some v
  | none =>
  match (match subDict data (sl "metadata") with
         | some m => _safe_int (_pick m idKeysS1)
         | none => none) with
  | some v => some v
  | none =>
  match (match subDict data (sl "custom_fields") with
         | some m => _safe_int (_pick m idKeysS1)
         | none => none) with
  | some v => some v
  | none =>
  match sectionUserId data (sl "order") with
  | some v => some v
  | none => sectionUserId data (sl "buyer")

/-- The product / offer / plan markers of `_extract_product_markers`. -/
structure Markers where
  product_id : List Char := []
  offer_id : List Char := []
  plan_id : List Char := []
deriving Repr, DecidableEq

/-- The candidate paths of `_extract_product_markers`, in source order. -/
def markerPaths : List (List (List Char)) :=
  [ [sl "product_id"], [sl "offer_id"], [sl "plan_id"], [sl "subscription_plan_id"],
    [sl "product", sl "id"], [sl "offer", sl "id"], [sl "plan", sl "id"],
    [sl "order", sl "product_id"], [sl "order", sl "offer_id"], [sl "order", sl "plan_id"],
    [sl "order", sl "subscription_plan_id"],
    [sl "data", sl "product_id"], [sl "data", sl "offer_id"], [sl "data", sl "plan_id"],
    [sl "purchase", sl "product_id"], [sl "purchase", sl "offer_id"],
    [sl "purchase", sl "plan_id"] ]

/-- `_extract_product_markers`. -/
def _extract_product_markers (data : List (List Char × Json)) : Markers :=
  markerPaths.foldl
    (fun out path =>
      match _dig (.obj data) path with
      | none => out
      | some cur =>
          let val := _safe_str (some cur)
          if val.isEmpty then out
          else
            let key := path.getLastD []
            if strIn (sl "product") key then
              if out.product_id.isEmpty then { out with product_id := val } else out
            else if strIn (sl "offer") key then
              if out.offer_id.isEmpty then { out with offer_id := val } else out
            else if strIn (sl "plan") key then
              if out.plan_id.isEmpty then { out with plan_id := val } else out
            else out)
    { product_id := [], offer_id := [], plan_id := [] }

/-- `_is_pro_purchase`. -/
def _is_pro_purchase (env : KiwifyEnv) (data : List (List Char × Json)) : Bool :=
  let m := _extract_product_markers data
  if env.proProductId.isEmpty && env.proOfferId.isEmpty && env.proPlanId.isEmpty then false
  else
    (!env.proProductId.isEmpty && m.product_id == env.proProductId)
      || (!env.proOfferId.isEmpty && m.offer_id == env.proOfferId)
      || (!env.proPlanId.isEmpty && m.plan_id == env.proPlanId)

/-- The `"noid-{len(raw)}-{utcnow}"` fallback event id. -/
def noidEventId (rawLen now : Nat) : List Char :=
  sl "noid-" ++ natToStr rawLen ++ sl "-" ++ natToStr now

/-- The event id string of the incoming request (`str(event_id)` after the
`_pick` / fallback logic). -/
def webhookEventId (data : List (List Char × Json)) (rawLen now : Nat) : List Char :=
  match _pick data [sl "id", sl "event_id", sl "order_id", sl "transaction_id",
                    sl "charge_id", sl "sale_id"] with
  | some v => if pyTruthy v then pyStr v else noidEventId rawLen now
  | none => noidEventId rawLen now

/-- `str(_pick(data, "event", "type", "status") or dflt)`. -/
def pickEventName (data : List (List Char × Json)) (dflt : List Char) : List Char :=
  match _pick data [sl "event", sl "type", sl "status"] with
  | some v => if pyTruthy v then pyStr v else dflt
  | none => dflt

/-- The `user_nao_encontrado` diagnostic string. -/
def userNotFoundReason (uid : Option Int) (email : Option (List Char)) : List Char :=
  sl "user_nao_encontrado" ++
    (match uid, email with
     | some u, some e => sl ":user_id=" ++ intToStr u ++ sl ";email=" ++ e
     | some u, none => sl ":user_id=" ++ intToStr u
     | none, some e => sl ":email=" ++ e
     | none, none => sl ":sem_user_id_sem_email")

/-- Step 0 of `kiwify_webhook`: token validation; `none` = accepted (and the
handler never rejects with an error status). -/
def webhookTokenFail (env : KiwifyEnv) (req : WebhookRequest) : Option WebhookResp :=
  if (pyStrip env.webhookToken).isEmpty then none
  else
    match req.receivedToken with
    | none => some { ok := true, ignored := true, reason := sl "token ausente" }
    | some r0 =>
        if (if List.isPrefixOf (sl "bearer ") (lowerStr r0)
            then pyStrip (r0.drop 7)
            else r0) == pyStrip env.webhookToken then none
        else some { ok := true, ignored := true, reason := sl "token invalido" }

/-- Step 1 of `kiwify_webhook`: the robust payload read (`request.json()`,
falling back to the form data, falling back to `{}`). -/
def webhookPayloadOf (req : WebhookRequest) : Json :=
  match req.jsonBody with
  | some j => j
  | none =>
      match req.formBody with
      | some f => f
      | none => .obj []

/-- The buyer e-mail as the webhook route re-normalizes it. -/
def webhookBuyerEmail (loads : List Char → Option Json)
    (data : List (List Char × Json)) : Option (List Char) :=
  match extract_buyer_email loads (.obj data) with
  | some e => some (lowerStr (pyStrip e))
  | none => none

/-- The user lookup of `kiwify_webhook`: by extracted user id first, then by
(case-insensitive) buyer e-mail. -/
def webhookFindUser (users : List UserRow) (uid? : Option Int)
    (buyerEmail : Option (List Char)) : Option UserRow :=
  let userByUid : Option UserRow :=
    match uid? with
    | some uid => users.find? (fun u => u.id == uid)
    | none => none
  match userByUid with
  | some u => some u
  | none =>
      match buyerEmail with
      | some e => users.find? (fun u => lowerStr u.email == e)
      | none => none

/-- The user-row update performed by the PRO branch of the webhook
(`user.is_paid = True; user.plan = "pro"`). -/
def proUser (u : UserRow) : UserRow := { u with is_paid := true, plan := sl "pro" }

/-- Record the event id in `webhook_events` unless it is already there
(the `WebhookEvent` insert guarded by the unique-constraint lookup). -/
def webhookReleaseRecord (data : List (List Char × Json)) (eventId : List Char)
    (now : Nat) (db1 : DB) : DB :=
  if (db1.webhook_events.find? (fun e => e.event_id == eventId)).isSome
  then db1
  else { db1 with webhook_events := db1.webhook_events ++
           [{ event_id := eventId,
              event_type := pickEventName data (sl "approved"),
              processed_at := now }] }

/-- Steps 4–5 of `kiwify_webhook` for an approved event that is not yet
recorded: find the user, grant PRO access when the purchase matches the
configured PRO ids, and record the event (a duplicate insert raises
`IntegrityError` and is rolled back, which the conditional append models). -/
def webhookRelease (loads : List Char → Option Json) (env : KiwifyEnv)
    (data : List (List Char × Json)) (eventId : List Char) (now : Nat)
    (db : DB) : WebhookResp × DB :=
  match webhookFindUser db.users (_extract_user_id_from_payload data)
      (webhookBuyerEmail loads data) with
  | none =>
      ({ ok := true, ignored := true,
         reason := userNotFoundReason (_extract_user_id_from_payload data)
           (webhookBuyerEmail loads data),
         event_id := eventId }, db)
  | some user =>
      ({ ok := true, approved := true, is_pro := _is_pro_purchase env data,
         paid := (if _is_pro_purchase env data then proUser user else user).is_paid,
         changed := _is_pro_purchase env data && !user.is_paid,
         email := webhookBuyerEmail loads data, user_id := some user.id,
         event_id := eventId },
       webhookReleaseRecord data eventId now
         (if _is_pro_purchase env data
          then updateUser db user.id (fun _ => proUser user) else db))

/-- Steps 2–5 of `kiwify_webhook` once the payload is a truthy dict. -/
def webhookProcess (loads : List Char → Option Json) (env : KiwifyEnv)
    (data : List (List Char × Json)) (rawLen now : Nat) (db : DB) :
    WebhookResp × DB :=
  let eventId := webhookEventId data rawLen now
  if !is_payment_approved loads (.obj data) then
    ({ ok := true, ignored := true, reason := sl "nao_aprovado",
       event := pickEventName data (sl "unknown") }, db)
  else
    match db.webhook_events.find? (fun e => e.event_id == eventId) with
    | some _ => ({ ok := true, idempotent := true, event_id := eventId }, db)
    | none => webhookRelease loads env data eventId now db

/-- `POST /webhooks/kiwify` (`kiwify_webhook`).  Returns the JSON body of the
(always HTTP 200) response and the resulting database state.  The modelled
failure paths are the ones visible in the code: a body that parses to a
truthy non-dict makes `_nested` raise, which the outer `except` turns into
the `debug_error` acknowledgment; inserting a duplicate `event_id` raises
`IntegrityError`, which is rolled back. -/
def kiwify_webhook (loads : List Char → Option Json) (env : KiwifyEnv)
    (req : WebhookRequest) (now : Nat) (db : DB) : WebhookResp × DB :=
  match webhookTokenFail env req with
  | some resp => (resp, db)
  | none =>
      let payload := webhookPayloadOf req
      if !pyTruthy payload then
        ({ ok := true, ignored := true, reason := sl "payload vazio (teste?)" }, db)
      else
        match payload with
        | .obj pkvs => webhookProcess loads env (_nested pkvs) req.rawLen now db
        | _ =>
            -- truthy non-dict payload: `_nested` raises, the outer handler
            -- still acknowledges with 200
            ({ ok := true, ignored := true, debug_error := true }, db)

/-- Is the (normalized) payload a dict? -/
def isObjJ : Json → Bool
  | .obj _ => true
  | _ => false

/-! ## Helper lemmas: characters and strings -/

theorem toNat_ofNat_small (n : Nat) (h : n < 55296) : (Char.ofNat n).toNat = n := by
  rw [Char.ofNat, dif_pos (Or.inl h)]
  show (UInt32.ofNat' n _).toNat = n
  simp [UInt32.ofNat', UInt32.toNat]

theorem lowerChar_eq_or (c : Char) :
    lowerChar c = c ∨
      ((lowerChar c).toNat = c.toNat + 32 ∧
        (65 ≤ c.toNat ∧ c.toNat ≤ 90 ∨ 192 ≤ c.toNat ∧ c.toNat ≤ 222 ∧ c.toNat ≠ 215)) := by
  unfold lowerChar
  split_ifs with h1 h2
  · exact Or.inr ⟨toNat_ofNat_small _ (by omega), Or.inl h1⟩
  · exact Or.inr ⟨toNat_ofNat_small _ (by omega), Or.inr h2⟩
  · exact Or.inl rfl

theorem lowerChar_eq_self (c : Char)
    (h1 : ¬(65 ≤ c.toNat ∧ c.toNat ≤ 90))
    (h2 : ¬(192 ≤ c.toNat ∧ c.toNat ≤ 222 ∧ c.toNat ≠ 215)) : lowerChar c = c := by
  unfold lowerChar
  rw [if_neg h1, if_neg h2]

theorem lowerChar_idem (c : Char) : lowerChar (lowerChar c) = lowerChar c := by
  rcases lowerChar_eq_or c with h | ⟨h, hr⟩
  · rw [h]
    exact h
  · exact lowerChar_eq_self _ (by omega) (by omega)

theorem toNat_le_32_of_isPySpace {c : Char} (h : isPySpace c = true) : c.toNat ≤ 32 := by
  unfold isPySpace at h
  simp only [Bool.or_eq_true, decide_eq_true_eq] at h
  rcases h with ((((h|h)|h)|h)|h)|h <;> subst h <;> decide

theorem isPySpace_lowerChar (c : Char) : isPySpace (lowerChar c) = isPySpace c := by
  rcases lowerChar_eq_or c with h | ⟨h, hr⟩
  · rw [h]
  · have h1 : isPySpace c = false := by
      cases hh : isPySpace c
      · rfl
      · have := toNat_le_32_of_isPySpace hh
        omega
    have h2 : isPySpace (lowerChar c) = false := by
      cases hh : isPySpace (lowerChar c)
      · rfl
      · have := toNat_le_32_of_isPySpace hh
        omega
    rw [h1, h2]

theorem lowerStr_idem (s : List Char) : lowerStr (lowerStr s) = lowerStr s := by
  induction s with
  | nil => rfl
  | cons c cs ih =>
      simp only [lowerStr, List.map_cons] at ih ⊢
      rw [lowerChar_idem]
      exact congrArg _ ih

theorem pyStrip_lowerStr (s : List Char) :
    pyStrip (lowerStr s) = lowerStr (pyStrip s) := by
  have hfun : (fun c => isPySpace (lowerChar c)) = isPySpace := by
    funext c
    exact isPySpace_lowerChar c
  unfold pyStrip lowerStr List.rdropWhile
  rw [List.dropWhile_map, ← List.map_reverse, List.dropWhile_map, ← List.map_reverse]
  simp only [Function.comp_def, hfun]

theorem dropWhile_rdropWhile_self (p : Char → Bool) (t : List Char)
    (hhead : t.dropWhile p = t) :
    (List.rdropWhile p t).dropWhile p = List.rdropWhile p t := by
  rw [List.dropWhile_eq_self_iff]
  intro hl
  have hpre := List.rdropWhile_prefix p t
  have hne : List.rdropWhile p t ≠ [] := by
    intro hnil
    rw [hnil] at hl
    simp at hl
  have hth : t ≠ [] := by
    intro hnil
    subst hnil
    simp [List.rdropWhile] at hne
  have hheads := hpre.head hne
  have hget : (List.rdropWhile p t).get ⟨0, hl⟩ = (List.rdropWhile p t).head hne := by
    simp [List.get_mk_zero, List.head_eq_getElem]
  rw [hget, hheads]
  have hnp : ¬ p (t.head hth) := by
    have hd := List.head_dropWhile_not p t (by rw [hhead]; exact hth)
    simpa [hhead] using hd
  exact hnp

theorem pyStrip_idem (s : List Char) : pyStrip (pyStrip s) = pyStrip s := by
  unfold pyStrip
  rw [dropWhile_rdropWhile_self isPySpace (s.dropWhile isPySpace)
        (List.dropWhile_idempotent _ _)]
  exact List.rdropWhile_idempotent _ _

/-! ## Claim C5: `extract_buyer_email` output shape -/

theorem as_email_spec (v : Option Json) (e : List Char) (h : _as_email v = some e) :
    pyStrip e = e ∧ lowerStr e = e ∧ e.contains '@' = true ∧ e.contains '.' = true := by
  unfold _as_email at h
  split at h
  next s =>
    split at h
    · exact absurd h (by simp)
    · split at h
      next hcond =>
        simp only [Option.some.injEq] at h
        subst h
        refine ⟨?_, lowerStr_idem _, ?_, ?_⟩
        · rw [pyStrip_lowerStr, pyStrip_idem]
        · exact (Bool.and_eq_true _ _).mp hcond |>.1
        · exact (Bool.and_eq_true _ _).mp hcond |>.2
      next => exact absurd h (by simp)
  next => exact absurd h (by simp)

theorem firstEmail_as_email (kvs : List (List Char × Json))
    (ps : List (List (List Char))) (e : List Char)
    (h : firstEmail kvs ps = some e) :
    ∃ v, _as_email v = some e := by
  induction ps with
  | nil => exact absurd h (by simp [firstEmail])
  | cons p ps ih =>
      unfold firstEmail at h
      split at h
      next heq =>
        simp only [Option.some.injEq] at h
        subst h
        exact ⟨_, heq⟩
      next => exact ih h

/-- C5.  Every e-mail returned by `extract_buyer_email` is stripped, fully
lowercase and contains `@` and `.`; and when the normalized payload is not a
dict the result is `None`. -/
theorem extract_buyer_email_spec (loads : List Char → Option Json) (payload : Json) :
    (∀ e, extract_buyer_email loads payload = some e →
        pyStrip e = e ∧ lowerStr e = e ∧ e.contains '@' = true ∧ e.contains '.' = true) ∧
    (isObjJ (_normalize_payload loads payload) = false →
        extract_buyer_email loads payload = none) := by
  constructor
  · intro e h
    unfold extract_buyer_email at h
    split at h
    · -- dict payload: the result comes from `_as_email` along some path
      split at h
      next heq =>
        simp only [Option.some.injEq] at h
        subst h
        obtain ⟨v, hv⟩ := firstEmail_as_email _ _ _ heq
        exact as_email_spec v _ hv
      next =>
        split at h
        next heq =>
          simp only [Option.some.injEq] at h
          subst h
          exact as_email_spec _ _ heq
        next => exact as_email_spec _ _ h
    · exact absurd h (by simp)
  · intro hobj
    unfold extract_buyer_email
    split
    next heq => rw [heq] at hobj; exact absurd hobj (by simp [isObjJ])
    next => rfl

/-- Witness for C5 at a concrete payload (an e-mail found under
`customer.email`, and a non-dict payload). -/
theorem extract_buyer_email_spec_witness :
    (pyStrip (sl "a@b.com") = sl "a@b.com" ∧ lowerStr (sl "a@b.com") = sl "a@b.com" ∧
      (sl "a@b.com").contains '@' = true ∧ (sl "a@b.com").contains '.' = true) ∧
    extract_buyer_email (fun _ => none) (.int 5) = none := by
  constructor
  · exact (extract_buyer_email_spec (fun _ => none)
      (.obj [(sl "customer", .obj [(sl "email", .str (sl "  A@B.com "))])])).1
      (sl "a@b.com") (by decide)
  · exact (extract_buyer_email_spec (fun _ => none) (.int 5)).2 (by decide)

/-! ## Concrete fixtures used by witnesses -/

/-- A parser stub for witnesses (payloads that carry no JSON strings). -/
def trivLoads : List Char → Option Json := fun _ => none

def paidUserW : UserRow :=
  { id := 7, email := sl "a@b.com", is_paid := true, plan := sl "pro",
    monthly_quota_used := 0, quota_reset_at := some 100 }

def freeUserW : UserRow :=
  { id := 8, email := sl "c@d.com", is_paid := false, plan := sl "free",
    monthly_quota_used := 0, quota_reset_at := some 100 }

def proposalW : ProposalRow :=
  { id := 1, user_id := 7, client_name := sl "C", service := sl "S",
    price := sl "10", deadline := sl "5d", tone := sl "direto",
    objective := sl "vender", input_summary := sl "r", proposal_text := sl "texto",
    created_at := 0 }

def dbW : DB :=
  { users := [paidUserW, freeUserW], proposals := [proposalW], webhook_events := [] }

/-- A session decoder for witnesses: the cookie value is the `sub` claim. -/
def decodeW : List Char → Option (List Char) := fun t => some t

def buildPdfW : ProposalRow → List Char := fun _ => sl "%PDF"

def firstDayNextMonthW : Nat → Nat := fun n => n + 30

/-! ## Claim C4: the paywall gate on the proposal-PDF endpoint -/

/-- C4.  `GET /proposal/{id}/pdf`: no resolved user ⇒ 303 redirect to
`/login`; a resolved user with `is_paid` false ⇒ 303 redirect to the
paywall; and PDF bytes are produced only for an authenticated user with
`is_paid` true. -/
theorem proposal_pdf_gate (decode : List Char → Option (List Char))
    (cookie : Option (List Char)) (buildPdf : ProposalRow → List Char)
    (proposal_id : Int) (db : DB) :
    (get_current_user decode cookie db.users = none →
      proposal_pdf decode cookie buildPdf proposal_id db = .redirect (sl "/login") 303) ∧
    (∀ u, get_current_user decode cookie db.users = some u → u.is_paid = false →
      proposal_pdf decode cookie buildPdf proposal_id db =
        .redirect (sl "/paywall?reason=pdf") 303) ∧
    (∀ bytes, proposal_pdf decode cookie buildPdf proposal_id db = .pdfFile bytes →
      ∃ u, get_current_user decode cookie db.users = some u ∧ u.is_paid = true) := by
  refine ⟨?_, ?_, ?_⟩
  · intro h
    unfold proposal_pdf
    rw [h]
    rfl
  · intro u hu hpaid
    unfold proposal_pdf
    rw [hu]
    simp only [hpaid, Bool.not_false, if_true]
    rfl
  · intro bytes h
    unfold proposal_pdf at h
    cases hg : get_current_user decode cookie db.users with
    | none =>
        rw [hg] at h
        exact absurd h (by simp [redirectLogin])
    | some u =>
        rw [hg] at h
        cases hp : u.is_paid with
        | false =>
            simp only [hp, Bool.not_false, if_true] at h
            simp [redirectPaywall] at h
        | true => exact ⟨u, rfl, hp⟩

/-- Witness for C4: with no cookie the endpoint redirects to `/login`; an
unpaid user is sent to the paywall; and the PDF case yields a paid user. -/
theorem proposal_pdf_gate_witness :
    proposal_pdf decodeW none buildPdfW 1 dbW = .redirect (sl "/login") 303 ∧
    proposal_pdf decodeW (some (sl "8")) buildPdfW 1 dbW =
      .redirect (sl "/paywall?reason=pdf") 303 ∧
    ∃ u, get_current_user decodeW (some (sl "7")) dbW.users = some u ∧ u.is_paid = true := by
  refine ⟨?_, ?_, ?_⟩
  · exact (proposal_pdf_gate decodeW none buildPdfW 1 dbW).1 (by decide)
  · exact (proposal_pdf_gate decodeW (some (sl "8")) buildPdfW 1 dbW).2.1
      freeUserW (by decide) (by decide)
  · exact (proposal_pdf_gate decodeW (some (sl "7")) buildPdfW 1 dbW).2.2
      (buildPdfW proposalW) (by decide)

/-! ## Claim C9: the webhook receiver always acknowledges with ok = true -/

theorem webhookTokenFail_ok (env : KiwifyEnv) (req : WebhookRequest)
    (resp : WebhookResp) (h : webhookTokenFail env req = some resp) :
    resp.ok = true := by
  unfold webhookTokenFail at h
  split at h
  · exact Option.noConfusion h
  · split at h
    · injection h with h2
      rw [← h2]
    · split at h <;> split at h
      · exact Option.noConfusion h
      · injection h with h2
        rw [← h2]
      · exact Option.noConfusion h
      · injection h with h2
        rw [← h2]

theorem webhookRelease_ok (loads : List Char → Option Json) (env : KiwifyEnv)
    (data : List (List Char × Json)) (eventId : List Char) (now : Nat) (db : DB) :
    (webhookRelease loads env data eventId now db).1.ok = true := by
  simp only [webhookRelease]
  split <;> rfl

theorem webhookProcess_ok (loads : List Char → Option Json) (env : KiwifyEnv)
    (data : List (List Char × Json)) (rawLen now : Nat) (db : DB) :
    (webhookProcess loads env data rawLen now db).1.ok = true := by
  simp only [webhookProcess]
  split
  · rfl
  · split
    · rfl
    · exact webhookRelease_ok _ _ _ _ _ _

/-- C9.  `kiwify_webhook` is total and never signals failure: every request
— bad or missing token, empty or unparseable body, non-dict payload, unknown
user, duplicate event — produces a 200 acknowledgment whose body has
`ok = true`. -/
theorem kiwify_webhook_always_ok (loads : List Char → Option Json)
    (env : KiwifyEnv) (req : WebhookRequest) (now : Nat) (db : DB) :
    (kiwify_webhook loads env req now db).1.ok = true := by
  unfold kiwify_webhook
  cases htok : webhookTokenFail env req with
  | some resp => exact webhookTokenFail_ok env req resp htok
  | none =>
      simp only []
      split
      · rfl
      · split
        · exact webhookProcess_ok _ _ _ _ _ _
        · rfl

/-! ## Claim C8: proposals are persisted and served per user -/

theorem mem_insertByIdDesc {p q : ProposalRow} {l : List ProposalRow}
    (h : p ∈ insertByIdDesc q l) : p = q ∨ p ∈ l := by
  induction l with
  | nil => simpa [insertByIdDesc] using h
  | cons r rs ih =>
      unfold insertByIdDesc at h
      split at h
      · rcases List.mem_cons.mp h with h | h
        · exact Or.inl h
        · exact Or.inr h
      · rcases List.mem_cons.mp h with h | h
        · exact Or.inr (List.mem_cons.mpr (Or.inl h))
        · rcases ih h with h | h
          · exact Or.inl h
          · exact Or.inr (List.mem_cons.mpr (Or.inr h))

theorem mem_sortByIdDesc {p : ProposalRow} {l : List ProposalRow}
    (h : p ∈ sortByIdDesc l) : p ∈ l := by
  induction l with
  | nil => simpa [sortByIdDesc] using h
  | cons r rs ih =>
      unfold sortByIdDesc at h
      rcases mem_insertByIdDesc h with h | h
      · exact h ▸ List.mem_cons_self _ _
      · exact List.mem_cons.mpr (Or.inr (ih h))

theorem maybe_reset_proposals (fdm : Nat → Nat) (now : Nat) (db : DB)
    (uid : Int) (info : QuotaInfo) :
    (_maybe_reset_monthly_quota fdm now db uid info).2.proposals = db.proposals := by
  unfold _maybe_reset_monthly_quota
  split <;> rfl

theorem check_quota_proposals (fdm : Nat → Nat) (now : Nat) (db : DB)
    (user : UserRow) (reason : List Char) :
    (_check_free_quota_or_redirect fdm now db user reason).2.proposals = db.proposals := by
  unfold _check_free_quota_or_redirect
  rcases hm : _maybe_reset_monthly_quota fdm now db user.id
      (_fetch_user_plan_and_quota db user.id) with ⟨info, db2⟩
  have h2 : db2.proposals = db.proposals := by
    have := maybe_reset_proposals fdm now db user.id (_fetch_user_plan_and_quota db user.id)
    rw [hm] at this
    exact this
  dsimp only []
  split_ifs <;> exact h2

theorem increment_proposals (db : DB) (uid : Int) :
    (_increment_free_quota db uid).proposals = db.proposals := rfl

/-- C8.  Proposals are persisted and served per user: `POST /create` either
leaves the proposals table unchanged (redirect paths) or appends exactly one
row whose `user_id` is the authenticated requester's id; `GET
/proposal/{id}` serves a proposal only when its `user_id` is the requester's
id and redirects to `/history` when no such row exists; and every proposal
served by `GET /history` belongs to the requester. -/
theorem proposals_per_user (decode : List Char → Option (List Char))
    (cookie : Option (List Char)) (fdm : Nat → Nat) (now : Nat)
    (mode : List Char) (gptGen : PData → List Char) (openai : Option (List Char))
    (data : PData) (pid : Int) (db : DB) :
    (∀ user, get_current_user decode cookie db.users = some user →
      ((create_action decode cookie fdm now mode gptGen openai data db).2.proposals =
          db.proposals ∨
        ∃ p, (create_action decode cookie fdm now mode gptGen openai data db).2.proposals =
            db.proposals ++ [p] ∧ p.user_id = user.id)) ∧
    (∀ user name p, get_current_user decode cookie db.users = some user →
      proposal_detail decode cookie pid db = .templateProposal name p →
      p.user_id = user.id ∧ p ∈ db.proposals) ∧
    (∀ user, get_current_user decode cookie db.users = some user →
      db.proposals.find? (fun p => p.id == pid && p.user_id == user.id) = none →
      proposal_detail decode cookie pid db = .redirect (sl "/history") 303) ∧
    (∀ user name ps, get_current_user decode cookie db.users = some user →
      history_page decode cookie db = .templateList name ps →
      ∀ p ∈ ps, p.user_id = user.id) := by
  refine ⟨?_, ?_, ?_, ?_⟩
  · intro user hu
    unfold create_action
    rw [hu]
    dsimp only []
    rcases hc : _check_free_quota_or_redirect fdm now db user (sl "quota") with
      ⟨⟨ok, redir, qm⟩, db1⟩
    have hdb1 : db1.proposals = db.proposals := by
      have := check_quota_proposals fdm now db user (sl "quota")
      rw [hc] at this
      exact this
    have hgen : ∀ qm', ((create_action_generate user now mode gptGen openai data qm' db1).2.proposals =
        db.proposals ++ [createdRow user now mode gptGen openai data
          (if (qm'.plan == sl "free") = true then _increment_free_quota db1 user.id else db1)]) := by
      intro qm'
      unfold create_action_generate
      dsimp only []
      split
      · rw [increment_proposals, hdb1]
      · rw [hdb1]
    dsimp only []
    match ok, redir with
    | false, some r => exact Or.inl hdb1
    | true, none => exact Or.inr ⟨_, hgen qm, rfl⟩
    | true, some r => exact Or.inr ⟨_, hgen qm, rfl⟩
    | false, none => exact Or.inr ⟨_, hgen qm, rfl⟩
  · intro user name p hu hresp
    unfold proposal_detail at hresp
    rw [hu] at hresp
    dsimp only [] at hresp
    cases hf : db.proposals.find? (fun q => q.id == pid && q.user_id == user.id) with
    | none =>
        rw [hf] at hresp
        exact absurd hresp (by simp)
    | some q =>
        rw [hf] at hresp
        simp only [Response.templateProposal.injEq] at hresp
        obtain ⟨-, hpq⟩ := hresp
        subst hpq
        have hmem := List.mem_of_find?_eq_some hf
        have hpred := List.find?_some hf
        simp only [Bool.and_eq_true, beq_iff_eq] at hpred
        exact ⟨hpred.2, hmem⟩
  · intro user hu hnone
    unfold proposal_detail
    rw [hu]
    dsimp only []
    rw [hnone]
  · intro user name ps hu hresp p hp
    unfold history_page at hresp
    rw [hu] at hresp
    dsimp only [] at hresp
    simp only [Response.templateList.injEq] at hresp
    obtain ⟨-, hps⟩ := hresp
    subst hps
    have h1 := List.mem_of_mem_take hp
    have h2 := mem_sortByIdDesc h1
    have h3 := List.of_mem_filter h2
    simpa using h3

/-! ## Claim C1: a refunded/chargeback event is never approved

`is_payment_approved` re-runs `is_payment_refunded_or_chargeback` on the
already-normalized payload, which normalizes a second time; the second
normalization can only parse the `data` / `payload` string fields further,
and doing so never hides a negative candidate (a string-valued `data` field
contributes only empty candidates). -/

theorem expandKey_fst (loads : List Char → Option Json) (k0 : List Char)
    (kv : List Char × Json) :
    ((fun kv : List Char × Json =>
        if kv.1 == k0 then
          match kv.2 with
          | .str s => match loads s with
                      | some j => (kv.1, j)
                      | none => kv
          | _ => kv
        else kv) kv).1 = kv.1 := by
  obtain ⟨k1, v⟩ := kv
  dsimp only []
  by_cases h : (k1 == k0) = true
  · rw [if_pos h]
    cases v with
    | str s =>
        show (match loads s with
              | some j => (k1, j)
              | none => (k1, Json.str s)).1 = k1
        cases loads s <;> rfl
    | null => rfl
    | bool b => rfl
    | int n => rfl
    | arr xs => rfl
    | obj o => rfl
  · rw [if_neg h]

theorem jget_expandKey_ne (loads : List Char → Option Json)
    (kvs : List (List Char × Json)) (k0 k : List Char) (hne : (k == k0) = false) :
    jget (expandKey loads kvs k0) k = jget kvs k := by
  induction kvs with
  | nil => rfl
  | cons kv kvs ih =>
      unfold expandKey at ih ⊢
      simp only [List.map_cons]
      unfold jget
      rw [List.find?_cons, List.find?_cons, expandKey_fst]
      cases hkv : (kv.1 == k) with
      | false => exact ih
      | true =>
          have hk0 : (kv.1 == k0) = false := by
            have hk : kv.1 = k := by
              have := hkv
              exact eq_of_beq this
            rw [hk]
            exact hne
          simp only [hk0, Bool.false_eq_true, if_false]

/-- The value transformation applied to the `k0` field by `expandKey`. -/
def expandVal (loads : List Char → Option Json) : Json → Json
  | .str s => match loads s with
              | some j => j
              | none => .str s
  | v => v

theorem jget_expandKey_self (loads : List Char → Option Json)
    (kvs : List (List Char × Json)) (k0 : List Char) :
    jget (expandKey loads kvs k0) k0 = (jget kvs k0).map (expandVal loads) := by
  induction kvs with
  | nil => rfl
  | cons kv kvs ih =>
      unfold expandKey at ih ⊢
      simp only [List.map_cons]
      unfold jget
      rw [List.find?_cons, List.find?_cons, expandKey_fst]
      cases hkv : (kv.1 == k0) with
      | false => exact ih
      | true =>
          simp only [hkv, if_true, Option.map_some]
          cases kv2 : kv.2 with
          | str s =>
              cases hl : loads s with
              | none => simp [expandVal, kv2, hl]
              | some j => simp [expandVal, kv2, hl]
          | null => simp [expandVal, kv2]
          | bool b => simp [expandVal, kv2]
          | int n => simp [expandVal, kv2]
          | arr xs => simp [expandVal, kv2]
          | obj o => simp [expandVal, kv2]

/-- The double field expansion performed by normalizing an
already-normalized dict. -/
def expand2 (loads : List Char → Option Json) (kvs : List (List Char × Json)) :
    List (List Char × Json) :=
  expandKey loads (expandKey loads kvs (sl "data")) (sl "payload")

theorem jget_expand2_ne (loads : List Char → Option Json)
    (kvs : List (List Char × Json)) (k : List Char)
    (h1 : (k == sl "data") = false) (h2 : (k == sl "payload") = false) :
    jget (expand2 loads kvs) k = jget kvs k := by
  unfold expand2
  rw [jget_expandKey_ne loads _ _ _ h2, jget_expandKey_ne loads _ _ _ h1]

theorem dig2_expand2_ne (loads : List Char → Option Json)
    (kvs : List (List Char × Json)) (a b : List Char)
    (h1 : (a == sl "data") = false) (h2 : (a == sl "payload") = false) :
    _dig (.obj (expand2 loads kvs)) [a, b] = _dig (.obj kvs) [a, b] := by
  show (match jget (expand2 loads kvs) a with
        | some v => _dig v [b]
        | none => none) =
       (match jget kvs a with
        | some v => _dig v [b]
        | none => none)
  rw [jget_expand2_ne loads kvs a h1 h2]

theorem dig_obj_cons (kvs : List (List Char × Json)) (k : List Char)
    (ks : List (List Char)) :
    _dig (.obj kvs) (k :: ks) =
      (match jget kvs k with
       | some v => _dig v ks
       | none => none) := rfl

theorem cand_expand2_data (loads : List Char → Option Json)
    (kvs : List (List Char × Json)) (b : List Char) :
    _norm (_dig (.obj (expand2 loads kvs)) [sl "data", b]) =
        _norm (_dig (.obj kvs) [sl "data", b]) ∨
      _norm (_dig (.obj kvs) [sl "data", b]) = [] := by
  have hget : jget (expand2 loads kvs) (sl "data") =
      (jget kvs (sl "data")).map (expandVal loads) := by
    unfold expand2
    rw [jget_expandKey_ne loads _ _ _ (by decide), jget_expandKey_self]
  rw [dig_obj_cons, dig_obj_cons, hget]
  cases hd : jget kvs (sl "data") with
  | none => exact Or.inl rfl
  | some v =>
      cases v with
      | str s => exact Or.inr rfl
      | null => exact Or.inl rfl
      | bool bb => exact Or.inl rfl
      | int n => exact Or.inl rfl
      | arr xs => exact Or.inl rfl
      | obj o => exact Or.inl rfl

/-- Candidates are related pairwise: the expanded candidate equals the
original, except that an originally-empty candidate may change. -/
theorem cand_forall2 (loads : List Char → Option Json)
    (kvs : List (List Char × Json)) :
    List.Forall₂ (fun a b => b = a ∨ a = [])
      (_candidate_values kvs) (_candidate_values (expand2 loads kvs)) := by
  unfold _candidate_values
  refine .cons ?_ (.cons ?_ (.cons ?_ (.cons ?_ (.cons ?_ (.cons ?_ (.cons ?_
    (.cons ?_ (.cons ?_ (.cons ?_ (.cons ?_ (.cons ?_ (.cons ?_ (.cons ?_
    (.cons ?_ .nil))))))))))))))
  · exact Or.inl (congrArg _norm (jget_expand2_ne loads kvs _ (by decide) (by decide)))
  · exact Or.inl (congrArg _norm (jget_expand2_ne loads kvs _ (by decide) (by decide)))
  · exact Or.inl (congrArg _norm (jget_expand2_ne loads kvs _ (by decide) (by decide)))
  · exact Or.inl (congrArg _norm (jget_expand2_ne loads kvs _ (by decide) (by decide)))
  · exact Or.inl (congrArg _norm (jget_expand2_ne loads kvs _ (by decide) (by decide)))
  · exact Or.inl (congrArg _norm (jget_expand2_ne loads kvs _ (by decide) (by decide)))
  · exact Or.inl (congrArg _norm (dig2_expand2_ne loads kvs _ _ (by decide) (by decide)))
  · rcases cand_expand2_data loads kvs (sl "status") with h | h
    · exact Or.inl h
    · exact Or.inr h
  · exact Or.inl (congrArg _norm (dig2_expand2_ne loads kvs _ _ (by decide) (by decide)))
  · exact Or.inl (congrArg _norm (dig2_expand2_ne loads kvs _ _ (by decide) (by decide)))
  · exact Or.inl (congrArg _norm (dig2_expand2_ne loads kvs _ _ (by decide) (by decide)))
  · exact Or.inl (congrArg _norm (dig2_expand2_ne loads kvs _ _ (by decide) (by decide)))
  · rcases cand_expand2_data loads kvs (sl "subscription_status") with h | h
    · exact Or.inl h
    · exact Or.inr h
  · rcases cand_expand2_data loads kvs (sl "event") with h | h
    · exact Or.inl h
    · exact Or.inr h
  · rcases cand_expand2_data loads kvs (sl "type") with h | h
    · exact Or.inl h
    · exact Or.inr h

theorem any_of_forall2 {l l' : List (List Char)} (pred : List Char → Bool)
    (hnil : pred [] = false)
    (hrel : List.Forall₂ (fun a b => b = a ∨ a = []) l l')
    (h : l.any pred = true) : l'.any pred = true := by
  induction hrel with
  | nil => simpa using h
  | cons hr _ ih =>
      simp only [List.any_cons, Bool.or_eq_true] at h ⊢
      rcases h with h | h
      · rcases hr with rfl | rfl
        · exact Or.inl h
        · rw [hnil] at h
          exact absurd h (by simp)
      · exact Or.inr (ih h)

theorem refundedCore_expand2 (loads : List Char → Option Json)
    (kvs : List (List Char × Json)) (h : refundedCore kvs = true) :
    refundedCore (expand2 loads kvs) = true := by
  unfold refundedCore at h ⊢
  simp only [Bool.or_eq_true] at h ⊢
  rcases h with (h | h) | h
  · exact Or.inl (Or.inl (any_of_forall2 isBadCandidate rfl (cand_forall2 loads kvs) h))
  · refine Or.inl (Or.inr ?_)
    rw [jget_expand2_ne loads kvs _ (by decide) (by decide)]
    exact h
  · refine Or.inr ?_
    rw [jget_expand2_ne loads kvs _ (by decide) (by decide)]
    exact h

/-- C1.  The negative-event detector and the approval detector never both
accept: any payload classified as refunded / chargeback / cancelled is not
classified as an approved payment. -/
theorem refunded_not_approved (loads : List Char → Option Json) (payload : Json)
    (h : is_payment_refunded_or_chargeback loads payload = true) :
    is_payment_approved loads payload = false := by
  unfold is_payment_refunded_or_chargeback at h
  unfold is_payment_approved
  cases hn : _normalize_payload loads payload with
  | obj kvs =>
      rw [hn] at h
      dsimp only [] at h
      have hrc : is_payment_refunded_or_chargeback loads (.obj kvs) = true := by
        unfold is_payment_refunded_or_chargeback
        have hexp : _normalize_payload loads (.obj kvs) = .obj (expand2 loads kvs) := rfl
        rw [hexp]
        exact refundedCore_expand2 loads kvs h
      dsimp only []
      rw [hrc]
      simp
  | null => rfl
  | bool b => rfl
  | int n => rfl
  | str s => rfl
  | arr xs => rfl

/-- Witness for C1: a payload that is both refunded-flagged and carries an
approval-shaped status is rejected by the approval detector. -/
theorem refunded_not_approved_witness :
    is_payment_refunded_or_chargeback trivLoads
        (.obj [(sl "status", .str (sl "order.paid")), (sl "refunded", .bool true)]) = true ∧
    is_payment_approved trivLoads
        (.obj [(sl "status", .str (sl "order.paid")), (sl "refunded", .bool true)]) = false := by
  constructor
  · decide
  · exact refunded_not_approved trivLoads
      (.obj [(sl "status", .str (sl "order.paid")), (sl "refunded", .bool true)])
      (by decide)

/-! ## Claim C2: webhook idempotency

Processing the same request twice changes the user table at most once; an
event whose id is already recorded is acknowledged idempotently without
touching any user row; and the event table's unique `event_id` constraint is
preserved. -/

theorem proUser_idem (u : UserRow) : proUser (proUser u) = proUser u := by
  cases u
  rfl

theorem find?_id_update (users : List UserRow) (i j : Int) (w : UserRow)
    (hw : w.id = i) :
    (users.map (fun u => if u.id == i then w else u)).find? (fun u => u.id == j) =
      (users.find? (fun u => u.id == j)).map (fun u0 => if u0.id == i then w else u0) := by
  induction users with
  | nil => rfl
  | cons u us ih =>
      simp only [List.map_cons]
      rw [List.find?_cons, List.find?_cons]
      cases hui : (u.id == i) with
      | true =>
          have hid : u.id = i := eq_of_beq hui
          simp only [hui, if_true]
          have hpred : (w.id == j) = (u.id == j) := by rw [hw, hid]
          rw [hpred]
          cases huj : (u.id == j) with
          | true =>
              dsimp only []
              rw [Option.map_some', if_pos hui]
          | false => simpa using ih
      | false =>
          simp only [hui, Bool.false_eq_true, if_false]
          cases huj : (u.id == j) with
          | true =>
              dsimp only []
              rw [Option.map_some', if_neg (by simp [hui])]
          | false => simpa using ih

theorem find?_email_update (users : List UserRow) (user w : UserRow)
    (e : List Char) (hw : w.id = user.id)
    (hpredw : (lowerStr w.email == e) = true)
    (h : users.find? (fun u => lowerStr u.email == e) = some user) :
    (users.map (fun u => if u.id == user.id then w else u)).find?
        (fun u => lowerStr u.email == e) = some w := by
  induction users with
  | nil => exact absurd h (by simp)
  | cons u us ih =>
      simp only [List.map_cons]
      rw [List.find?_cons] at h ⊢
      cases hpu : (lowerStr u.email == e) with
      | true =>
          rw [hpu] at h
          simp only [if_true, Option.some.injEq] at h
          subst h
          simp [hpredw]
      | false =>
          rw [hpu] at h
          simp only [Bool.false_eq_true, if_false] at h
          cases hui : (u.id == user.id) with
          | true => simp [hui, hpredw]
          | false =>
              simp only [hui, Bool.false_eq_true, if_false, hpu]
              exact ih h

theorem webhookFindUser_update (users : List UserRow) (uid? : Option Int)
    (email? : Option (List Char)) (user : UserRow)
    (h : webhookFindUser users uid? email? = some user) :
    webhookFindUser (users.map (fun u => if u.id == user.id then proUser user else u))
        uid? email? = some (proUser user) := by
  unfold webhookFindUser at h ⊢
  cases uid? with
  | some uidv =>
      dsimp only [] at h ⊢
      rw [find?_id_update users user.id uidv (proUser user) rfl]
      cases hf : users.find? (fun u => u.id == uidv) with
      | some u0 =>
          rw [hf] at h
          simp only [Option.some.injEq] at h
          subst h
          rw [Option.map_some', if_pos (by simp)]
      | none =>
          rw [hf] at h
          rw [Option.map_none']
          cases email? with
          | none => exact absurd h (by simp)
          | some e =>
              have hpw : (lowerStr (proUser user).email == e) = true := by
                have := List.find?_some h
                simpa [proUser] using this
              exact find?_email_update users user (proUser user) e rfl hpw h
  | none =>
      dsimp only [] at h ⊢
      cases email? with
      | none => exact absurd h (by simp)
      | some e =>
          have hpw : (lowerStr (proUser user).email == e) = true := by
            have := List.find?_some h
            simpa [proUser] using this
          exact find?_email_update users user (proUser user) e rfl hpw h

theorem map_update_idem (users : List UserRow) (w : UserRow) (i : Int)
    (hw : w.id = i) :
    (users.map (fun u => if u.id == i then w else u)).map
        (fun u => if u.id == i then w else u) =
      users.map (fun u => if u.id == i then w else u) := by
  rw [List.map_map]
  apply List.map_congr_left
  intro u _
  show (if (if u.id == i then w else u).id == i then w else if u.id == i then w else u) =
    (if u.id == i then w else u)
  cases hui : (u.id == i) with
  | true => simp [hw]
  | false => simp [hui]

theorem webhookReleaseRecord_users (data : List (List Char × Json))
    (eventId : List Char) (now : Nat) (db1 : DB) :
    (webhookReleaseRecord data eventId now db1).users = db1.users := by
  unfold webhookReleaseRecord
  split <;> rfl

theorem webhookRelease_users_char (loads : List Char → Option Json)
    (env : KiwifyEnv) (data : List (List Char × Json)) (eventId : List Char)
    (now : Nat) (db : DB) :
    (webhookRelease loads env data eventId now db).2.users = db.users ∨
    ∃ user, webhookFindUser db.users (_extract_user_id_from_payload data)
          (webhookBuyerEmail loads data) = some user ∧
      _is_pro_purchase env data = true ∧
      (webhookRelease loads env data eventId now db).2.users =
        db.users.map (fun u => if u.id == user.id then proUser user else u) := by
  unfold webhookRelease
  cases hfu : webhookFindUser db.users (_extract_user_id_from_payload data)
      (webhookBuyerEmail loads data) with
  | none => exact Or.inl rfl
  | some user =>
      cases hpro : _is_pro_purchase env data with
      | false =>
          left
          dsimp only []
          rw [if_neg (by simp)]
          exact webhookReleaseRecord_users data eventId now db
      | true =>
          right
          refine ⟨user, rfl, rfl, ?_⟩
          dsimp only []
          rw [if_pos rfl, webhookReleaseRecord_users]
          rfl

theorem webhookRelease_users_stable (loads : List Char → Option Json)
    (env : KiwifyEnv) (data : List (List Char × Json)) (eventId : List Char)
    (now : Nat) (db dbBase : DB) (user : UserRow)
    (husers : db.users =
      dbBase.users.map (fun u => if u.id == user.id then proUser user else u))
    (hfind : webhookFindUser dbBase.users (_extract_user_id_from_payload data)
        (webhookBuyerEmail loads data) = some user)
    (hpro : _is_pro_purchase env data = true) :
    (webhookRelease loads env data eventId now db).2.users = db.users := by
  have hfu : webhookFindUser db.users (_extract_user_id_from_payload data)
      (webhookBuyerEmail loads data) = some (proUser user) := by
    rw [husers]
    exact webhookFindUser_update dbBase.users _ _ user hfind
  unfold webhookRelease
  rw [hfu]
  dsimp only []
  rw [hpro, if_pos rfl, webhookReleaseRecord_users]
  have hid : (proUser user).id = user.id := rfl
  show db.users.map
      (fun u => if u.id == (proUser user).id then proUser (proUser user) else u) =
    db.users
  simp only [hid, proUser_idem]
  rw [husers]
  exact map_update_idem dbBase.users (proUser user) user.id rfl

theorem webhookProcess_users_char (loads : List Char → Option Json)
    (env : KiwifyEnv) (data : List (List Char × Json)) (rawLen now : Nat) (db : DB) :
    (webhookProcess loads env data rawLen now db).2.users = db.users ∨
    ∃ user, webhookFindUser db.users (_extract_user_id_from_payload data)
          (webhookBuyerEmail loads data) = some user ∧
      _is_pro_purchase env data = true ∧
      (webhookProcess loads env data rawLen now db).2.users =
        db.users.map (fun u => if u.id == user.id then proUser user else u) := by
  simp only [webhookProcess]
  split
  · exact Or.inl rfl
  · split
    · exact Or.inl rfl
    · exact webhookRelease_users_char loads env data _ now db

theorem webhookProcess_users_stable (loads : List Char → Option Json)
    (env : KiwifyEnv) (data : List (List Char × Json)) (rawLen now : Nat)
    (db dbBase : DB) (user : UserRow)
    (husers : db.users =
      dbBase.users.map (fun u => if u.id == user.id then proUser user else u))
    (hfind : webhookFindUser dbBase.users (_extract_user_id_from_payload data)
        (webhookBuyerEmail loads data) = some user)
    (hpro : _is_pro_purchase env data = true) :
    (webhookProcess loads env data rawLen now db).2.users = db.users := by
  simp only [webhookProcess]
  split
  · rfl
  · split
    · rfl
    · exact webhookRelease_users_stable loads env data _ now db dbBase user husers hfind hpro

theorem kiwify_webhook_users_char (loads : List Char → Option Json)
    (env : KiwifyEnv) (req : WebhookRequest) (now : Nat) (db : DB) :
    (kiwify_webhook loads env req now db).2.users = db.users ∨
    ∃ kvs user, webhookPayloadOf req = .obj kvs ∧
      webhookFindUser db.users (_extract_user_id_from_payload (_nested kvs))
          (webhookBuyerEmail loads (_nested kvs)) = some user ∧
      _is_pro_purchase env (_nested kvs) = true ∧
      (kiwify_webhook loads env req now db).2.users =
        db.users.map (fun u => if u.id == user.id then proUser user else u) := by
  unfold kiwify_webhook
  cases webhookTokenFail env req with
  | some resp => exact Or.inl rfl
  | none =>
      simp only []
      split
      · exact Or.inl rfl
      · cases hpl : webhookPayloadOf req with
        | obj kvs =>
            rcases webhookProcess_users_char loads env (_nested kvs) req.rawLen now db with
              h | ⟨user, hfind, hpro, husers⟩
            · exact Or.inl h
            · exact Or.inr ⟨kvs, user, rfl, hfind, hpro, husers⟩
        | null => exact Or.inl rfl
        | bool b => exact Or.inl rfl
        | int n => exact Or.inl rfl
        | str s => exact Or.inl rfl
        | arr xs => exact Or.inl rfl

theorem kiwify_webhook_users_stable (loads : List Char → Option Json)
    (env : KiwifyEnv) (req : WebhookRequest) (now : Nat) (db dbBase : DB)
    (user : UserRow)
    (husers : db.users =
      dbBase.users.map (fun u => if u.id == user.id then proUser user else u))
    (hcond : ∀ kvs, webhookPayloadOf req = .obj kvs →
      webhookFindUser dbBase.users (_extract_user_id_from_payload (_nested kvs))
          (webhookBuyerEmail loads (_nested kvs)) = some user ∧
        _is_pro_purchase env (_nested kvs) = true) :
    (kiwify_webhook loads env req now db).2.users = db.users := by
  unfold kiwify_webhook
  cases webhookTokenFail env req with
  | some resp => rfl
  | none =>
      simp only []
      split
      · rfl
      · cases hpl : webhookPayloadOf req with
        | obj kvs =>
            obtain ⟨hfind, hpro⟩ := hcond kvs hpl
            exact webhookProcess_users_stable loads env (_nested kvs) req.rawLen now db
              dbBase user husers hfind hpro
        | null => rfl
        | bool b => rfl
        | int n => rfl
        | str s => rfl
        | arr xs => rfl

theorem webhookTokenFail_ignored (env : KiwifyEnv) (req : WebhookRequest)
    (resp : WebhookResp) (h : webhookTokenFail env req = some resp) :
    resp.ignored = true := by
  unfold webhookTokenFail at h
  split at h
  · exact Option.noConfusion h
  · split at h
    · injection h with h2
      rw [← h2]
    · split at h <;> split at h
      · exact Option.noConfusion h
      · injection h with h2
        rw [← h2]
      · exact Option.noConfusion h
      · injection h with h2
        rw [← h2]

theorem webhookProcess_recorded (loads : List Char → Option Json)
    (env : KiwifyEnv) (data : List (List Char × Json)) (rawLen now : Nat) (db : DB)
    (hrec : (db.webhook_events.find?
        (fun e => e.event_id == webhookEventId data rawLen now)).isSome = true) :
    (webhookProcess loads env data rawLen now db).2 = db ∧
      ((webhookProcess loads env data rawLen now db).1.ignored = true ∨
        (webhookProcess loads env data rawLen now db).1.idempotent = true) := by
  simp only [webhookProcess]
  split
  · exact ⟨rfl, Or.inl rfl⟩
  · cases hf : db.webhook_events.find?
        (fun e => e.event_id == webhookEventId data rawLen now) with
    | some ev => exact ⟨rfl, Or.inr rfl⟩
    | none =>
        rw [hf] at hrec
        exact absurd hrec (by simp)

theorem webhookReleaseRecord_nodup (data : List (List Char × Json))
    (eventId : List Char) (now : Nat) (db1 : DB)
    (hnd : (db1.webhook_events.map (fun e => e.event_id)).Nodup) :
    ((webhookReleaseRecord data eventId now db1).webhook_events.map
        (fun e => e.event_id)).Nodup := by
  unfold webhookReleaseRecord
  split
  · exact hnd
  next hfind =>
    have hnone : db1.webhook_events.find? (fun e => e.event_id == eventId) = none := by
      cases hf : db1.webhook_events.find? (fun e => e.event_id == eventId) with
      | none => rfl
      | some ev =>
          rw [hf] at hfind
          simp at hfind
    simp only [List.map_append, List.map_cons, List.map_nil]
    rw [List.nodup_append]
    refine ⟨hnd, List.nodup_singleton _, ?_⟩
    intro x hx hx1
    simp only [List.mem_singleton] at hx1
    subst hx1
    obtain ⟨ev, hev, hevid⟩ := List.mem_map.mp hx
    have hne := List.find?_eq_none.mp hnone ev hev
    rw [hevid] at hne
    simp at hne

theorem webhookRelease_events_nodup (loads : List Char → Option Json)
    (env : KiwifyEnv) (data : List (List Char × Json)) (eventId : List Char)
    (now : Nat) (db : DB)
    (hnd : (db.webhook_events.map (fun e => e.event_id)).Nodup) :
    ((webhookRelease loads env data eventId now db).2.webhook_events.map
        (fun e => e.event_id)).Nodup := by
  unfold webhookRelease
  cases webhookFindUser db.users (_extract_user_id_from_payload data)
      (webhookBuyerEmail loads data) with
  | none => exact hnd
  | some user =>
      dsimp only []
      apply webhookReleaseRecord_nodup
      split
      · exact hnd
      · exact hnd

theorem kiwify_webhook_events_nodup (loads : List Char → Option Json)
    (env : KiwifyEnv) (req : WebhookRequest) (now : Nat) (db : DB)
    (hnd : (db.webhook_events.map (fun e => e.event_id)).Nodup) :
    ((kiwify_webhook loads env req now db).2.webhook_events.map
        (fun e => e.event_id)).Nodup := by
  unfold kiwify_webhook
  cases webhookTokenFail env req with
  | some resp => exact hnd
  | none =>
      simp only []
      split
      · exact hnd
      · cases webhookPayloadOf req with
        | obj kvs =>
            simp only [webhookProcess]
            split
            · exact hnd
            · split
              · exact hnd
              · exact webhookRelease_events_nodup loads env (_nested kvs) _ now db hnd
        | null => exact hnd
        | bool b => exact hnd
        | int n => exact hnd
        | str s => exact hnd
        | arr xs => exact hnd

/-- C2.  Webhook idempotency: (i) processing the same request twice changes
the user table at most once — either the second pass leaves users exactly as
the first pass left them, or the first pass already left them untouched;
(ii) a request whose event id is already recorded in `webhook_events` is
acknowledged (ignored or idempotent) without modifying the database at all;
(iii) the uniqueness of `event_id` in `webhook_events` is preserved by every
request. -/
theorem kiwify_webhook_idempotent (loads : List Char → Option Json)
    (env : KiwifyEnv) (req : WebhookRequest) (now1 now2 : Nat) (db : DB) :
    ((kiwify_webhook loads env req now2
        (kiwify_webhook loads env req now1 db).2).2.users =
          (kiwify_webhook loads env req now1 db).2.users ∨
      (kiwify_webhook loads env req now1 db).2.users = db.users) ∧
    ((∀ kvs, webhookPayloadOf req = .obj kvs →
        ((db.webhook_events.find? (fun e =>
            e.event_id == webhookEventId (_nested kvs) req.rawLen now1)).isSome = true)) →
      (kiwify_webhook loads env req now1 db).2 = db ∧
        ((kiwify_webhook loads env req now1 db).1.ignored = true ∨
          (kiwify_webhook loads env req now1 db).1.idempotent = true)) ∧
    ((db.webhook_events.map (fun e => e.event_id)).Nodup →
      ((kiwify_webhook loads env req now1 db).2.webhook_events.map
          (fun e => e.event_id)).Nodup) := by
  refine ⟨?_, ?_, ?_⟩
  · rcases kiwify_webhook_users_char loads env req now1 db with
      h | ⟨kvs, user, hobj, hfind, hpro, husers⟩
    · exact Or.inr h
    · left
      refine kiwify_webhook_users_stable loads env req now2 _ db user husers ?_
      intro kvs' hobj'
      rw [hobj] at hobj'
      injection hobj' with hk
      subst hk
      exact ⟨hfind, hpro⟩
  · intro hrec
    unfold kiwify_webhook
    cases htok : webhookTokenFail env req with
    | some resp => exact ⟨rfl, Or.inl (webhookTokenFail_ignored env req resp htok)⟩
    | none =>
        simp only []
        split
        · exact ⟨rfl, Or.inl rfl⟩
        · cases hpl : webhookPayloadOf req with
          | obj kvs =>
              exact webhookProcess_recorded loads env (_nested kvs) req.rawLen now1 db (hrec kvs hpl)
          | null => exact ⟨rfl, Or.inl rfl⟩
          | bool b => exact ⟨rfl, Or.inl rfl⟩
          | int n => exact ⟨rfl, Or.inl rfl⟩
          | str s => exact ⟨rfl, Or.inl rfl⟩
          | arr xs => exact ⟨rfl, Or.inl rfl⟩
  · exact kiwify_webhook_events_nodup loads env req now1 db

/-- Witness for C2: a request whose event id `ev1` is already recorded is
acknowledged with the database unchanged. -/
theorem kiwify_webhook_idempotent_witness :
    (kiwify_webhook trivLoads
        { webhookToken := [], proProductId := [], proOfferId := [], proPlanId := [] }
        { receivedToken := none,
          jsonBody := some (.obj [(sl "id", .str (sl "ev1")), (sl "status", .str (sl "paid"))]),
          formBody := none, rawLen := 4 } 5
        { users := [freeUserW], proposals := [],
          webhook_events := [{ event_id := sl "ev1", event_type := sl "paid",
                               processed_at := 1 }] }).2 =
      { users := [freeUserW], proposals := [],
        webhook_events := [{ event_id := sl "ev1", event_type := sl "paid",
                             processed_at := 1 }] } :=
  ((kiwify_webhook_idempotent trivLoads
    { webhookToken := [], proProductId := [], proOfferId := [], proPlanId := [] }
    { receivedToken := none,
      jsonBody := some (.obj [(sl "id", .str (sl "ev1")), (sl "status", .str (sl "paid"))]),
      formBody := none, rawLen := 4 } 5 7
    { users := [freeUserW], proposals := [],
      webhook_events := [{ event_id := sl "ev1", event_type := sl "paid",
                           processed_at := 1 }] }).2.1
    (by
      intro kvs hk
      injection hk with hk2
      subst hk2
      decide)).1

/-- C7.  Every row appended by `POST /create` stores `createdText` as its
proposal text; when the OpenAI call is unavailable (`None`) or yields no
text (empty), that text is exactly the finalization pipeline applied to the
templated local generator's output `generate_proposal_text(data)`; and in
stub mode the local generator never consults the remote one, so it is a
deterministic function of the input dict. -/
theorem created_text_local_fallback (decode : List Char → Option (List Char))
    (cookie : Option (List Char)) (fdm : Nat → Nat) (now : Nat)
    (mode : List Char) (gptGen : PData → List Char) (openai : Option (List Char))
    (data : PData) (db : DB) :
    (∀ p, (create_action decode cookie fdm now mode gptGen openai data db).2.proposals =
        db.proposals ++ [p] → p.proposal_text = createdText mode gptGen openai data) ∧
    ((openai = none ∨ openai = some []) →
      createdText mode gptGen openai data =
        _finalize_proposal_text (generate_proposal_text mode gptGen data)) ∧
    (lowerStr (if mode.isEmpty then sl "stub" else mode) ≠ sl "gpt" →
      ∀ g₁ g₂ : PData → List Char,
        generate_proposal_text mode g₁ data = generate_proposal_text mode g₂ data) := by
  refine ⟨?_, ?_, ?_⟩
  · intro p hp
    unfold create_action at hp
    cases hu : get_current_user decode cookie db.users with
    | none =>
        rw [hu] at hp
        dsimp only [] at hp
        have := congrArg List.length hp
        simp at this
    | some user =>
        rw [hu] at hp
        dsimp only [] at hp
        rcases hc : _check_free_quota_or_redirect fdm now db user (sl "quota") with
          ⟨⟨ok, redir, qm⟩, db1⟩
        rw [hc] at hp
        dsimp only [] at hp
        have hdb1 : db1.proposals = db.proposals := by
          have := check_quota_proposals fdm now db user (sl "quota")
          rw [hc] at this
          exact this
        have hgen : ∀ qm' : QuotaMeta,
            (create_action_generate user now mode gptGen openai data qm' db1).2.proposals =
              db.proposals ++ [p] →
            p.proposal_text = createdText mode gptGen openai data := by
          intro qm' hq
          unfold create_action_generate at hq
          dsimp only [] at hq
          have hprop : (if (qm'.plan == sl "free") = true
              then _increment_free_quota db1 user.id else db1).proposals = db.proposals := by
            split
            · rw [increment_proposals]
              exact hdb1
            · exact hdb1
          rw [hprop] at hq
          have := List.append_inj_right hq rfl
          simp only [List.cons.injEq] at this
          rw [← this.1]
          rfl
        match ok, redir with
        | false, some r =>
            dsimp only [] at hp
            have := congrArg List.length hp
            rw [hdb1] at this
            simp at this
        | true, none => exact hgen qm hp
        | true, some r => exact hgen qm hp
        | false, none => exact hgen qm hp
  · rintro (rfl | rfl) <;> rfl
  · intro hmode g₁ g₂
    unfold generate_proposal_text
    dsimp only []
    rw [if_neg hmode, if_neg hmode]

def gptGenW : PData → List Char := fun _ => sl "Texto breve."

def dataW : PData := { service := sl "Design", tone := sl "direto" }

/-- Witness for C7: with a paid requester, `create_action` in `gpt` mode with
an empty OpenAI result appends the row carrying `createdText`, which equals
the finalized local-generator output; and the stub-mode generator ignores
the remote generator. -/
theorem created_text_local_fallback_witness :
    (createdRow paidUserW 0 (sl "gpt") gptGenW (some []) dataW dbW).proposal_text =
      createdText (sl "gpt") gptGenW (some []) dataW ∧
    createdText (sl "gpt") gptGenW (some []) dataW =
      _finalize_proposal_text (generate_proposal_text (sl "gpt") gptGenW dataW) ∧
    generate_proposal_text (sl "stub") gptGenW dataW =
      generate_proposal_text (sl "stub") (fun _ => []) dataW := by
  refine ⟨?_, ?_, ?_⟩
  · exact (created_text_local_fallback decodeW (some (sl "7")) firstDayNextMonthW 0
      (sl "gpt") gptGenW (some []) dataW dbW).1
      (createdRow paidUserW 0 (sl "gpt") gptGenW (some []) dataW dbW) (by rfl)
  · exact (created_text_local_fallback decodeW (some (sl "7")) firstDayNextMonthW 0
      (sl "gpt") gptGenW (some []) dataW dbW).2.1 (Or.inr rfl)
  · exact (created_text_local_fallback decodeW (some (sl "7")) firstDayNextMonthW 0
      (sl "stub") gptGenW (some []) dataW dbW).2.2 (by decide) gptGenW (fun _ => [])

/-- Witness for C8 at concrete requests: creation appends a row owned by the
free user; the detail route serves user 7's proposal to user 7 and redirects
user 8 to `/history`. -/
theorem proposals_per_user_witness :
    ((create_action decodeW (some (sl "8")) firstDayNextMonthW 0 (sl "stub")
        (fun _ => []) none { service := sl "Design" } dbW).2.proposals =
        dbW.proposals ∨
      ∃ p, (create_action decodeW (some (sl "8")) firstDayNextMonthW 0 (sl "stub")
          (fun _ => []) none { service := sl "Design" } dbW).2.proposals =
          dbW.proposals ++ [p] ∧ p.user_id = freeUserW.id) ∧
    proposal_detail decodeW (some (sl "8")) 1 dbW = .redirect (sl "/history") 303 := by
  constructor
  · exact (proposals_per_user decodeW (some (sl "8")) firstDayNextMonthW 0 (sl "stub")
      (fun _ => []) none { service := sl "Design" } 1 dbW).1 freeUserW (by decide)
  · exact (proposals_per_user decodeW (some (sl "8")) firstDayNextMonthW 0 (sl "stub")
      (fun _ => []) none { service := sl "Design" } 1 dbW).2.2.1 freeUserW (by decide)
      (by decide)

/-! ## Claim C10: the free-plan monthly quota -/

theorem find?_id_map (users : List UserRow) (f : UserRow → UserRow) (i : Int)
    (hf : ∀ u, (f u).id = u.id) :
    (users.map f).find? (fun u => u.id == i) =
      (users.find? (fun u => u.id == i)).map f := by
  induction users with
  | nil => rfl
  | cons u us ih =>
      simp only [List.map_cons]
      rw [List.find?_cons, List.find?_cons]
      have hpred : ((f u).id == i) = (u.id == i) := by rw [hf u]
      rw [hpred]
      cases hui : (u.id == i) with
      | true =>
          dsimp only []
          rw [Option.map_some']
      | false => simpa using ih

theorem updateUser_users_find (db : DB) (uid : Int) (f : UserRow → UserRow)
    (j : Int) (hf : ∀ u, (f u).id = u.id) :
    (updateUser db uid f).users.find? (fun v => v.id == j) =
      (db.users.find? (fun v => v.id == j)).map
        (fun u => if u.id == uid then f u else u) := by
  refine find?_id_map db.users _ j ?_
  intro u
  dsimp only []
  cases h : (u.id == uid) with
  | true =>
      rw [if_pos rfl]
      exact hf u
  | false => rw [if_neg Bool.false_ne_true]

theorem incFreeRow_id (i : Int) (u : UserRow) : (incFreeRow i u).id = u.id := by
  unfold incFreeRow
  cases h : (u.id == i && (if u.plan.isEmpty then sl "free" else u.plan) == sl "free"
      && u.is_paid == false) with
  | true => rw [if_pos rfl]
  | false => rw [if_neg Bool.false_ne_true]

theorem increment_users_find (db : DB) (i j : Int) :
    (_increment_free_quota db i).users.find? (fun v => v.id == j) =
      (db.users.find? (fun v => v.id == j)).map (incFreeRow i) :=
  find?_id_map db.users (incFreeRow i) j (fun u => incFreeRow_id i u)

theorem incFreeRow_hit (uid : Int) (u : UserRow) (hid : (u.id == uid) = true)
    (hplan : u.plan = sl "free") (hpaid : u.is_paid = false) :
    incFreeRow uid u = { u with monthly_quota_used := u.monthly_quota_used + 1 } := by
  unfold incFreeRow
  rw [if_pos (by rw [hid, hplan, hpaid]; rfl)]

theorem fetch_eq (db : DB) (user : UserRow)
    (hfind : db.users.find? (fun v => v.id == user.id) = some user) :
    _fetch_user_plan_and_quota db user.id =
      { plan := lowerStr (pyStrip (if user.plan.isEmpty then sl "free" else user.plan)),
        monthly_quota_used := user.monthly_quota_used,
        quota_reset_at := user.quota_reset_at } := by
  unfold _fetch_user_plan_and_quota
  rw [hfind]

theorem fetch_free (db : DB) (user : UserRow)
    (hfind : db.users.find? (fun v => v.id == user.id) = some user)
    (hplan : user.plan = sl "free") :
    _fetch_user_plan_and_quota db user.id =
      { plan := sl "free", monthly_quota_used := user.monthly_quota_used,
        quota_reset_at := user.quota_reset_at } := by
  rw [fetch_eq db user hfind, hplan]
  rfl

theorem maybe_reset_nr (fdm : Nat → Nat) (now : Nat) (db : DB) (uid : Int)
    (info : QuotaInfo) (hdue : quotaResetDue now info.quota_reset_at = false) :
    _maybe_reset_monthly_quota fdm now db uid info = (info, db) := by
  unfold _maybe_reset_monthly_quota
  rw [if_pos (by rw [hdue]; rfl)]

theorem maybe_reset_due (fdm : Nat → Nat) (now : Nat) (db : DB) (uid : Int)
    (info : QuotaInfo) (hdue : quotaResetDue now info.quota_reset_at = true) :
    _maybe_reset_monthly_quota fdm now db uid info =
      ({ info with monthly_quota_used := 0, quota_reset_at := some (fdm now) },
       updateUser db uid (resetRow fdm now)) := by
  unfold _maybe_reset_monthly_quota
  rw [if_neg (by rw [hdue]; exact Bool.false_ne_true)]

theorem is_pro_user_free (user : UserRow) (hpaid : user.is_paid = false) :
    _is_pro_user user (sl "free") = false := by
  unfold _is_pro_user
  rw [hpaid]
  rfl

theorem is_pro_user_true (user : UserRow)
    (hpro : user.is_paid = true ∨ user.plan = sl "pro") :
    _is_pro_user user
      (lowerStr (pyStrip (if user.plan.isEmpty then sl "free" else user.plan))) =
      true := by
  rcases hpro with h | h
  · unfold _is_pro_user
    rw [h]
    rfl
  · unfold _is_pro_user
    rw [h]
    exact Bool.or_true user.is_paid

theorem check_free_blocked (fdm : Nat → Nat) (now : Nat) (db : DB) (user : UserRow)
    (reason : List Char)
    (hfind : db.users.find? (fun v => v.id == user.id) = some user)
    (hplan : user.plan = sl "free") (hpaid : user.is_paid = false)
    (hdue : quotaResetDue now user.quota_reset_at = false)
    (hused : FREE_MONTHLY_LIMIT ≤ user.monthly_quota_used) :
    _check_free_quota_or_redirect fdm now db user reason =
      ((false, some (redirectPaywall reason),
        { plan := sl "free", used := user.monthly_quota_used,
          limit := some FREE_MONTHLY_LIMIT }), db) := by
  unfold _check_free_quota_or_redirect
  rw [fetch_free db user hfind hplan, maybe_reset_nr fdm now db user.id
    { plan := sl "free", monthly_quota_used := user.monthly_quota_used,
      quota_reset_at := user.quota_reset_at } hdue]
  dsimp only []
  rw [if_neg (by rw [is_pro_user_free user hpaid]; exact Bool.false_ne_true)]
  rw [if_pos hused]

theorem check_free_ok_nr (fdm : Nat → Nat) (now : Nat) (db : DB) (user : UserRow)
    (reason : List Char)
    (hfind : db.users.find? (fun v => v.id == user.id) = some user)
    (hplan : user.plan = sl "free") (hpaid : user.is_paid = false)
    (hdue : quotaResetDue now user.quota_reset_at = false)
    (hlt : user.monthly_quota_used < FREE_MONTHLY_LIMIT) :
    _check_free_quota_or_redirect fdm now db user reason =
      ((true, none,
        { plan := sl "free", used := user.monthly_quota_used,
          limit := some FREE_MONTHLY_LIMIT }), db) := by
  unfold _check_free_quota_or_redirect
  rw [fetch_free db user hfind hplan, maybe_reset_nr fdm now db user.id
    { plan := sl "free", monthly_quota_used := user.monthly_quota_used,
      quota_reset_at := user.quota_reset_at } hdue]
  dsimp only []
  rw [if_neg (by rw [is_pro_user_free user hpaid]; exact Bool.false_ne_true)]
  rw [if_neg (Nat.not_le.mpr hlt)]

theorem check_free_ok_due (fdm : Nat → Nat) (now : Nat) (db : DB) (user : UserRow)
    (reason : List Char)
    (hfind : db.users.find? (fun v => v.id == user.id) = some user)
    (hplan : user.plan = sl "free") (hpaid : user.is_paid = false)
    (hdue : quotaResetDue now user.quota_reset_at = true) :
    _check_free_quota_or_redirect fdm now db user reason =
      ((true, none,
        { plan := sl "free", used := 0, limit := some FREE_MONTHLY_LIMIT }),
       updateUser db user.id (resetRow fdm now)) := by
  unfold _check_free_quota_or_redirect
  rw [fetch_free db user hfind hplan, maybe_reset_due fdm now db user.id
    { plan := sl "free", monthly_quota_used := user.monthly_quota_used,
      quota_reset_at := user.quota_reset_at } hdue]
  dsimp only []
  rw [if_neg (by rw [is_pro_user_free user hpaid]; exact Bool.false_ne_true)]
  rw [if_neg (by decide)]

theorem check_pro_nr (fdm : Nat → Nat) (now : Nat) (db : DB) (user : UserRow)
    (reason : List Char)
    (hfind : db.users.find? (fun v => v.id == user.id) = some user)
    (hpro : user.is_paid = true ∨ user.plan = sl "pro")
    (hdue : quotaResetDue now user.quota_reset_at = false) :
    _check_free_quota_or_redirect fdm now db user reason =
      ((true, none,
        { plan := sl "pro", used := user.monthly_quota_used, limit := none }), db) := by
  unfold _check_free_quota_or_redirect
  rw [fetch_eq db user hfind, maybe_reset_nr fdm now db user.id
    { plan := lowerStr (pyStrip (if user.plan.isEmpty then sl "free" else user.plan)),
      monthly_quota_used := user.monthly_quota_used,
      quota_reset_at := user.quota_reset_at } hdue]
  dsimp only []
  rw [if_pos (is_pro_user_true user hpro)]

theorem check_pro_due (fdm : Nat → Nat) (now : Nat) (db : DB) (user : UserRow)
    (reason : List Char)
    (hfind : db.users.find? (fun v => v.id == user.id) = some user)
    (hpro : user.is_paid = true ∨ user.plan = sl "pro")
    (hdue : quotaResetDue now user.quota_reset_at = true) :
    _check_free_quota_or_redirect fdm now db user reason =
      ((true, none, { plan := sl "pro", used := 0, limit := none }),
       updateUser db user.id (resetRow fdm now)) := by
  unfold _check_free_quota_or_redirect
  rw [fetch_eq db user hfind, maybe_reset_due fdm now db user.id
    { plan := lowerStr (pyStrip (if user.plan.isEmpty then sl "free" else user.plan)),
      monthly_quota_used := user.monthly_quota_used,
      quota_reset_at := user.quota_reset_at } hdue]
  dsimp only []
  rw [if_pos (is_pro_user_true user hpro)]

theorem create_action_generate_users (user : UserRow) (now : Nat) (mode : List Char)
    (gptGen : PData → List Char) (openai : Option (List Char)) (data : PData)
    (qm : QuotaMeta) (db : DB) :
    (create_action_generate user now mode gptGen openai data qm db).2.users =
      (if qm.plan == sl "free" then _increment_free_quota db user.id else db).users :=
  rfl

theorem create_action_generate_fst (user : UserRow) (now : Nat) (mode : List Char)
    (gptGen : PData → List Char) (openai : Option (List Char)) (data : PData)
    (qm : QuotaMeta) (db : DB) :
    (create_action_generate user now mode gptGen openai data qm db).1 =
      .templateProposal (sl "result.html")
        (createdRow user now mode gptGen openai data
          (if qm.plan == sl "free" then _increment_free_quota db user.id else db)) :=
  rfl

/-- C10.  The free-plan monthly quota: `FREE_MONTHLY_LIMIT` is 2; a `POST
/create` by an authenticated user with plan `"free"` and `is_paid = false`
is redirected to the paywall, with the database untouched, once
`monthly_quota_used` (after any due monthly reset) has reached the limit;
below the limit the request succeeds and increments the user's
`monthly_quota_used` by exactly one; and a user with `is_paid = true` or
plan `"pro"` is never blocked and never has the counter incremented. -/
theorem free_quota_invariant (decode : List Char → Option (List Char))
    (cookie : Option (List Char)) (fdm : Nat → Nat) (now : Nat) (mode : List Char)
    (gptGen : PData → List Char) (openai : Option (List Char)) (data : PData)
    (db : DB) (user : UserRow)
    (hget : get_current_user decode cookie db.users = some user)
    (hfind : db.users.find? (fun v => v.id == user.id) = some user) :
    FREE_MONTHLY_LIMIT = 2 ∧
    (user.plan = sl "free" → user.is_paid = false →
      quotaResetDue now user.quota_reset_at = false →
      FREE_MONTHLY_LIMIT ≤ user.monthly_quota_used →
      create_action decode cookie fdm now mode gptGen openai data db =
        (redirectPaywall (sl "quota"), db)) ∧
    (user.plan = sl "free" → user.is_paid = false →
      (if quotaResetDue now user.quota_reset_at then 0 else user.monthly_quota_used)
          < FREE_MONTHLY_LIMIT →
      (∃ p, (create_action decode cookie fdm now mode gptGen openai data db).1 =
          .templateProposal (sl "result.html") p) ∧
      ((create_action decode cookie fdm now mode gptGen openai data db).2.users.find?
          (fun v => v.id == user.id)).map (fun v => v.monthly_quota_used) =
        some ((if quotaResetDue now user.quota_reset_at then 0
               else user.monthly_quota_used) + 1)) ∧
    ((user.is_paid = true ∨ user.plan = sl "pro") →
      (∃ p, (create_action decode cookie fdm now mode gptGen openai data db).1 =
          .templateProposal (sl "result.html") p) ∧
      ((create_action decode cookie fdm now mode gptGen openai data db).2.users.find?
          (fun v => v.id == user.id)).map (fun v => v.monthly_quota_used) =
        some (if quotaResetDue now user.quota_reset_at then 0
              else user.monthly_quota_used)) := by
  refine ⟨rfl, ?_, ?_, ?_⟩
  · intro hplan hpaid hdue hused
    unfold create_action
    rw [hget]
    dsimp only []
    rw [check_free_blocked fdm now db user (sl "quota") hfind hplan hpaid hdue hused]
  · intro hplan hpaid hlt
    cases hdue : quotaResetDue now user.quota_reset_at with
    | false =>
        have hlt2 : user.monthly_quota_used < FREE_MONTHLY_LIMIT := by
          simpa [hdue] using hlt
        unfold create_action
        rw [hget]
        dsimp only []
        rw [check_free_ok_nr fdm now db user (sl "quota") hfind hplan hpaid hdue hlt2]
        dsimp only []
        constructor
        · exact ⟨_, create_action_generate_fst user now mode gptGen openai data
            { plan := sl "free", used := user.monthly_quota_used,
              limit := some FREE_MONTHLY_LIMIT } db⟩
        · rw [create_action_generate_users user now mode gptGen openai data
            { plan := sl "free", used := user.monthly_quota_used,
              limit := some FREE_MONTHLY_LIMIT } db]
          dsimp only []
          rw [if_pos (show (sl "free" == sl "free") = true from rfl)]
          rw [increment_users_find db user.id user.id, hfind, Option.map_some',
            Option.map_some']
          have hself : (user.id == user.id) = true := by simp
          rw [incFreeRow_hit user.id user hself hplan hpaid]
          rfl
    | true =>
        unfold create_action
        rw [hget]
        dsimp only []
        rw [check_free_ok_due fdm now db user (sl "quota") hfind hplan hpaid hdue]
        dsimp only []
        constructor
        · exact ⟨_, create_action_generate_fst user now mode gptGen openai data
            { plan := sl "free", used := 0, limit := some FREE_MONTHLY_LIMIT }
            (updateUser db user.id (resetRow fdm now))⟩
        · rw [create_action_generate_users user now mode gptGen openai data
            { plan := sl "free", used := 0, limit := some FREE_MONTHLY_LIMIT }
            (updateUser db user.id (resetRow fdm now))]
          dsimp only []
          rw [if_pos (show (sl "free" == sl "free") = true from rfl)]
          rw [increment_users_find (updateUser db user.id (resetRow fdm now))
            user.id user.id]
          rw [updateUser_users_find db user.id (resetRow fdm now) user.id
            (fun u => rfl)]
          rw [hfind]
          simp only [Option.map_some']
          have hself : (user.id == user.id) = true := by simp
          rw [if_pos hself]
          rw [incFreeRow_hit user.id (resetRow fdm now user) hself hplan hpaid]
          rfl
  · intro hpro
    cases hdue : quotaResetDue now user.quota_reset_at with
    | false =>
        unfold create_action
        rw [hget]
        dsimp only []
        rw [check_pro_nr fdm now db user (sl "quota") hfind hpro hdue]
        dsimp only []
        constructor
        · exact ⟨_, create_action_generate_fst user now mode gptGen openai data
            { plan := sl "pro", used := user.monthly_quota_used, limit := none } db⟩
        · rw [create_action_generate_users user now mode gptGen openai data
            { plan := sl "pro", used := user.monthly_quota_used, limit := none } db]
          dsimp only []
          rw [if_neg (by decide)]
          rw [hfind, Option.map_some']
          rfl
    | true =>
        unfold create_action
        rw [hget]
        dsimp only []
        rw [check_pro_due fdm now db user (sl "quota") hfind hpro hdue]
        dsimp only []
        constructor
        · exact ⟨_, create_action_generate_fst user now mode gptGen openai data
            { plan := sl "pro", used := 0, limit := none }
            (updateUser db user.id (resetRow fdm now))⟩
        · rw [create_action_generate_users user now mode gptGen openai data
            { plan := sl "pro", used := 0, limit := none }
            (updateUser db user.id (resetRow fdm now))]
          dsimp only []
          rw [if_neg (by decide)]
          rw [updateUser_users_find db user.id (resetRow fdm now) user.id
            (fun u => rfl)]
          rw [hfind, Option.map_some']
          have hself : (user.id == user.id) = true := by simp
          rw [if_pos hself]
          rfl

/-- A free user standing exactly at the quota limit. -/
def quotaUserW : UserRow :=
  { id := 9, email := sl "q@d.co", is_paid := false, plan := sl "free",
    monthly_quota_used := 2, quota_reset_at := some 100 }

def dbQW : DB := { users := [quotaUserW], proposals := [], webhook_events := [] }

/-- Witness for C10: the free user who has already used 2 generations this
cycle is redirected to the paywall and the database is unchanged. -/
theorem free_quota_invariant_witness :
    create_action decodeW (some (sl "9")) firstDayNextMonthW 5 (sl "stub")
        (fun _ => []) none { service := sl "Design" } dbQW =
      (redirectPaywall (sl "quota"), dbQW) :=
  (free_quota_invariant decodeW (some (sl "9")) firstDayNextMonthW 5 (sl "stub")
      (fun _ => []) none { service := sl "Design" } dbQW quotaUserW (by decide)
      (by decide)).2.1 rfl rfl (by decide) (by decide)

/-! ## Claim C3: the fixed next-steps block -/

theorem dropWhile_append_ne (p : Char → Bool) (q r : List Char)
    (hq : q.dropWhile p ≠ []) :
    (q ++ r).dropWhile p = q.dropWhile p ++ r := by
  induction q with
  | nil => exact absurd rfl hq
  | cons c q ih =>
      cases hpc : p c with
      | true =>
          rw [List.cons_append, List.dropWhile_cons_of_pos hpc,
            List.dropWhile_cons_of_pos hpc]
          rw [List.dropWhile_cons_of_pos hpc] at hq
          exact ih hq
      | false =>
          rw [List.cons_append, List.dropWhile_cons_of_neg (by simp [hpc]),
            List.dropWhile_cons_of_neg (by simp [hpc])]
          rfl

theorem dropWhile_suffix_ex (p : Char → Bool) (x : List Char) :
    ∃ pre, pre ++ x.dropWhile p = x := by
  induction x with
  | nil => exact ⟨[], rfl⟩
  | cons c cs ih =>
      cases hpc : p c with
      | true =>
          obtain ⟨pre, hpre⟩ := ih
          exact ⟨c :: pre, by
            rw [List.dropWhile_cons_of_pos hpc, List.cons_append, hpre]⟩
      | false =>
          exact ⟨[], by rw [List.dropWhile_cons_of_neg (by simp [hpc])]; rfl⟩

theorem matchCI_append (pat q v r : List Char) (h : matchCI pat q = some v) :
    matchCI pat (q ++ r) = some (v ++ r) := by
  induction pat generalizing q with
  | nil =>
      simp only [matchCI] at h ⊢
      injection h with hv
      rw [hv]
  | cons p ps ih =>
      cases q with
      | nil => exact absurd h (by simp [matchCI])
      | cons c cs =>
          rw [List.cons_append]
          simp only [matchCI] at h ⊢
          by_cases hc : lowerChar c = p
          · rw [if_pos hc] at h
            rw [if_pos hc]
            exact ih cs h
          · rw [if_neg hc] at h
            exact absurd h (by simp)

theorem matchCI_p_head (t : List Char)
    (h : (matchCI (sl "próximos passos") t).isSome = true) :
    ∃ c cs, t = c :: cs ∧ lowerChar c = 'p' := by
  cases t with
  | nil => exact absurd h (by decide)
  | cons c cs =>
      refine ⟨c, cs, rfl, ?_⟩
      rw [show sl "próximos passos" = 'p' :: sl "róximos passos" from rfl] at h
      simp only [matchCI] at h
      by_cases hc : lowerChar c = 'p'
      · exact hc
      · rw [if_neg hc] at h
        exact absurd h (by decide)

theorem isDigit_toNat_le (c : Char) (h : c.isDigit = true) : c.toNat ≤ 57 := by
  simp only [Char.isDigit, Bool.and_eq_true, decide_eq_true_eq] at h
  exact UInt32.toNat_le_of_le (by decide) h.2

theorem lowerChar_isDigit (c : Char) (h : c.isDigit = true) : lowerChar c = c := by
  have h57 := isDigit_toNat_le c h
  unfold lowerChar
  rw [if_neg (by omega), if_neg (by omega)]

theorem matchDigits1_cons (c : Char) (cs : List Char) :
    matchDigits1 (c :: cs) =
      if c.isDigit then some (cs.dropWhile Char.isDigit) else none := rfl

theorem headDigitsGroup_none (t : List Char) (h : matchDigits1 t = none) :
    headDigitsGroup t = t := by
  unfold headDigitsGroup
  rw [h]

theorem headDigitsGroup_some_nil (t : List Char) (h : matchDigits1 t = some []) :
    headDigitsGroup t = t := by
  unfold headDigitsGroup
  rw [h]

theorem headDigitsGroup_some_cons (t : List Char) (c : Char) (r : List Char)
    (h : matchDigits1 t = some (c :: r)) :
    headDigitsGroup t = if c = '.' then r.dropWhile isPySpace else t := by
  unfold headDigitsGroup
  rw [h]

theorem headBoldGroup_ne (c : Char) (t : List Char) (hc : c ≠ '*') :
    headBoldGroup (c :: t) = c :: t := by
  cases t with
  | nil => rfl
  | cons c2 t2 =>
      show (if c = '*' ∧ c2 = '*' then t2 else c :: c2 :: t2) = c :: c2 :: t2
      rw [if_neg (fun hand : c = '*' ∧ c2 = '*' => hc hand.1)]

theorem headHashGroup_ne (c : Char) (t : List Char) (hc : c ≠ '#') :
    headHashGroup (c :: t) = c :: t := by
  cases t with
  | nil => rfl
  | cons c2 t2 =>
      show (if c = '#' ∧ c2 = '#' then t2.dropWhile isPySpace else c :: c2 :: t2) =
        c :: c2 :: t2
      rw [if_neg (fun hand : c = '#' ∧ c2 = '#' => hc hand.1)]

theorem headDigitsGroup_append (c1 : Char) (t1 r : List Char) :
    headDigitsGroup ((c1 :: t1) ++ r) = headDigitsGroup (c1 :: t1) ++ r ∨
    headDigitsGroup (c1 :: t1) = [] ∨
    (c1.isDigit = true ∧ headDigitsGroup (c1 :: t1) = c1 :: t1) := by
  cases hd : c1.isDigit with
  | false =>
      left
      have hmq : matchDigits1 (c1 :: t1) = none := by
        rw [matchDigits1_cons, hd]
        rfl
      have hms : matchDigits1 (c1 :: (t1 ++ r)) = none := by
        rw [matchDigits1_cons, hd]
        rfl
      rw [List.cons_append, headDigitsGroup_none _ hms, headDigitsGroup_none _ hmq,
        List.cons_append]
  | true =>
      cases hdw : t1.dropWhile Char.isDigit with
      | nil =>
          right; right
          have hmq : matchDigits1 (c1 :: t1) = some [] := by
            rw [matchDigits1_cons, hd, hdw]
            rfl
          exact ⟨rfl, headDigitsGroup_some_nil _ hmq⟩
      | cons cp r1 =>
          have hne : t1.dropWhile Char.isDigit ≠ [] := by
            rw [hdw]
            exact List.cons_ne_nil _ _
          have hext : (t1 ++ r).dropWhile Char.isDigit = cp :: (r1 ++ r) := by
            rw [dropWhile_append_ne Char.isDigit t1 r hne, hdw, List.cons_append]
          have hmq : matchDigits1 (c1 :: t1) = some (cp :: r1) := by
            rw [matchDigits1_cons, hd, hdw]
            rfl
          have hms : matchDigits1 (c1 :: (t1 ++ r)) = some (cp :: (r1 ++ r)) := by
            rw [matchDigits1_cons, hd, hext]
            rfl
          by_cases hcp : cp = '.'
          · cases hrw : r1.dropWhile isPySpace with
            | nil =>
                right; left
                rw [headDigitsGroup_some_cons _ _ _ hmq, if_pos hcp, hrw]
            | cons d rs =>
                left
                have hext2 : (r1 ++ r).dropWhile isPySpace = (d :: rs) ++ r := by
                  rw [dropWhile_append_ne isPySpace r1 r
                    (by rw [hrw]; exact List.cons_ne_nil _ _), hrw]
                rw [List.cons_append, headDigitsGroup_some_cons _ _ _ hms,
                  if_pos hcp, hext2]
                rw [headDigitsGroup_some_cons _ _ _ hmq, if_pos hcp, hrw]
          · left
            rw [List.cons_append, headDigitsGroup_some_cons _ _ _ hms, if_neg hcp]
            rw [headDigitsGroup_some_cons _ _ _ hmq, if_neg hcp, List.cons_append]

theorem headBoldGroup_append (c1 : Char) (t1 r : List Char) :
    headBoldGroup ((c1 :: t1) ++ r) = headBoldGroup (c1 :: t1) ++ r ∨
    (c1 = '*' ∧ headBoldGroup (c1 :: t1) = c1 :: t1) := by
  by_cases hc1 : c1 = '*'
  · cases t1 with
    | nil => exact Or.inr ⟨hc1, rfl⟩
    | cons c2 t2 =>
        by_cases hc2 : c2 = '*'
        · left
          subst hc1 hc2
          have hq : headBoldGroup ('*' :: '*' :: t2) = t2 := by
            show (if '*' = '*' ∧ '*' = '*' then t2 else '*' :: '*' :: t2) = t2
            rw [if_pos ⟨rfl, rfl⟩]
          have hs : headBoldGroup (('*' :: '*' :: t2) ++ r) = t2 ++ r := by
            show (if '*' = '*' ∧ '*' = '*' then t2 ++ r else '*' :: '*' :: (t2 ++ r)) =
              t2 ++ r
            rw [if_pos ⟨rfl, rfl⟩]
          rw [hq, hs]
        · left
          have hq : headBoldGroup (c1 :: c2 :: t2) = c1 :: c2 :: t2 := by
            show (if c1 = '*' ∧ c2 = '*' then t2 else c1 :: c2 :: t2) = c1 :: c2 :: t2
            rw [if_neg (fun hand : c1 = '*' ∧ c2 = '*' => hc2 hand.2)]
          have hs : headBoldGroup ((c1 :: c2 :: t2) ++ r) = c1 :: c2 :: (t2 ++ r) := by
            show (if c1 = '*' ∧ c2 = '*' then t2 ++ r else c1 :: c2 :: (t2 ++ r)) =
              c1 :: c2 :: (t2 ++ r)
            rw [if_neg (fun hand : c1 = '*' ∧ c2 = '*' => hc2 hand.2)]
          rw [hq, hs]
          rfl
  · left
    rw [List.cons_append, headBoldGroup_ne c1 (t1 ++ r) hc1,
      headBoldGroup_ne c1 t1 hc1, List.cons_append]

theorem headHashGroup_append (c1 : Char) (t1 r : List Char) :
    headHashGroup ((c1 :: t1) ++ r) = headHashGroup (c1 :: t1) ++ r ∨
    headHashGroup (c1 :: t1) = [] ∨
    (c1 = '#' ∧ headHashGroup (c1 :: t1) = c1 :: t1) := by
  by_cases hc1 : c1 = '#'
  · cases t1 with
    | nil => exact Or.inr (Or.inr ⟨hc1, rfl⟩)
    | cons c2 t2 =>
        by_cases hc2 : c2 = '#'
        · subst hc1 hc2
          cases hdw : t2.dropWhile isPySpace with
          | nil =>
              right; left
              show (if '#' = '#' ∧ '#' = '#' then t2.dropWhile isPySpace
                    else '#' :: '#' :: t2) = []
              rw [if_pos ⟨rfl, rfl⟩, hdw]
          | cons d rs =>
              left
              have hq : headHashGroup ('#' :: '#' :: t2) = d :: rs := by
                show (if '#' = '#' ∧ '#' = '#' then t2.dropWhile isPySpace
                      else '#' :: '#' :: t2) = d :: rs
                rw [if_pos ⟨rfl, rfl⟩, hdw]
              have hs : headHashGroup (('#' :: '#' :: t2) ++ r) = (d :: rs) ++ r := by
                show (if '#' = '#' ∧ '#' = '#' then (t2 ++ r).dropWhile isPySpace
                      else '#' :: '#' :: (t2 ++ r)) = (d :: rs) ++ r
                rw [if_pos ⟨rfl, rfl⟩]
                rw [dropWhile_append_ne isPySpace t2 r
                  (by rw [hdw]; exact List.cons_ne_nil _ _), hdw]
              rw [hq, hs]
        · left
          have hq : headHashGroup (c1 :: c2 :: t2) = c1 :: c2 :: t2 := by
            show (if c1 = '#' ∧ c2 = '#' then t2.dropWhile isPySpace
                  else c1 :: c2 :: t2) = c1 :: c2 :: t2
            rw [if_neg (fun hand : c1 = '#' ∧ c2 = '#' => hc2 hand.2)]
          have hs : headHashGroup ((c1 :: c2 :: t2) ++ r) = c1 :: c2 :: (t2 ++ r) := by
            show (if c1 = '#' ∧ c2 = '#' then (t2 ++ r).dropWhile isPySpace
                  else c1 :: c2 :: (t2 ++ r)) = c1 :: c2 :: (t2 ++ r)
            rw [if_neg (fun hand : c1 = '#' ∧ c2 = '#' => hc2 hand.2)]
          rw [hq, hs]
          rfl
  · left
    rw [List.cons_append, headHashGroup_ne c1 (t1 ++ r) hc1,
      headHashGroup_ne c1 t1 hc1, List.cons_append]

theorem headingCore_append (q r : List Char) (h : headingCore q = true) :
    headingCore (q ++ r) = true := by
  unfold headingCore at h ⊢
  cases hq1 : q.dropWhile isPySpace with
  | nil =>
      rw [hq1] at h
      exact absurd h (by decide)
  | cons c1 t1 =>
      rw [hq1] at h
      rw [dropWhile_append_ne isPySpace q r
        (by rw [hq1]; exact List.cons_ne_nil _ _), hq1]
      rcases headDigitsGroup_append c1 t1 r with h2 | h2 | ⟨hdig, h2⟩
      · rw [h2]
        cases ht2 : headDigitsGroup (c1 :: t1) with
        | nil =>
            rw [ht2] at h
            exact absurd h (by decide)
        | cons c2 t2 =>
            rw [ht2] at h
            rcases headBoldGroup_append c2 t2 r with h3 | ⟨hstar, h3⟩
            · rw [h3]
              cases ht3 : headBoldGroup (c2 :: t2) with
              | nil =>
                  rw [ht3] at h
                  exact absurd h (by decide)
              | cons c3 t3 =>
                  rw [ht3] at h
                  rcases headHashGroup_append c3 t3 r with h4 | h4 | ⟨hhash, h4⟩
                  · rw [h4]
                    cases hm : matchCI (sl "próximos passos")
                        (headHashGroup (c3 :: t3)) with
                    | none =>
                        rw [hm] at h
                        exact absurd h (by decide)
                    | some v =>
                        rw [matchCI_append _ _ v r hm]
                        rfl
                  · rw [h4] at h
                    exact absurd h (by decide)
                  · rw [h4] at h
                    obtain ⟨cz, csz, hceq, hlc⟩ := matchCI_p_head _ h
                    injection hceq with hc9 _
                    rw [← hc9, hhash] at hlc
                    exact absurd hlc (by decide)
            · rw [h3] at h
              subst hstar
              rw [headHashGroup_ne '*' t2 (by decide)] at h
              obtain ⟨cz, csz, hceq, hlc⟩ := matchCI_p_head _ h
              injection hceq with hc9 _
              rw [← hc9] at hlc
              exact absurd hlc (by decide)
      · rw [h2] at h
        exact absurd h (by decide)
      · rw [h2] at h
        have hnstar : c1 ≠ '*' := fun he => by
          rw [he] at hdig
          exact absurd hdig (by decide)
        have hnhash : c1 ≠ '#' := fun he => by
          rw [he] at hdig
          exact absurd hdig (by decide)
        rw [headBoldGroup_ne c1 t1 hnstar, headHashGroup_ne c1 t1 hnhash] at h
        obtain ⟨cz, csz, hceq, hlc⟩ := matchCI_p_head _ h
        injection hceq with hc9 _
        rw [← hc9] at hlc
        rw [lowerChar_isDigit c1 hdig] at hlc
        rw [hlc] at hdig
        exact absurd hdig (by decide)

theorem hasHeadingTail_append_left (pre y : List Char)
    (h : hasHeadingTail y = true) : hasHeadingTail (pre ++ y) = true := by
  induction pre with
  | nil => exact h
  | cons c pre ih =>
      show (decide (c = '\n') && headingCore (pre ++ y) || hasHeadingTail (pre ++ y)) =
        true
      rw [ih, Bool.or_true]

theorem hasHeadingTail_append_right (q r : List Char)
    (h : hasHeadingTail q = true) : hasHeadingTail (q ++ r) = true := by
  induction q with
  | nil => exact absurd h (by decide)
  | cons c cs ih =>
      show (decide (c = '\n') && headingCore (cs ++ r) || hasHeadingTail (cs ++ r)) =
        true
      have hq : (decide (c = '\n') && headingCore cs || hasHeadingTail cs) = true := h
      rcases Bool.or_eq_true_iff.mp hq with h1 | h2
      · rcases Bool.and_eq_true_iff.mp h1 with ⟨hnl, hcore⟩
        rw [hnl, headingCore_append cs r hcore]
        rfl
      · rw [ih h2, Bool.or_true]

theorem hasHeading_append (q r : List Char) (h : hasHeading q = true) :
    hasHeading (q ++ r) = true := by
  unfold hasHeading at h ⊢
  rcases Bool.or_eq_true_iff.mp h with h1 | h2
  · rw [headingCore_append q r h1, Bool.true_or]
  · rw [hasHeadingTail_append_right q r h2, Bool.or_true]

theorem cutHeadingTail_prefix (s : List Char) :
    ∃ r, cutHeadingTail s ++ r = s := by
  induction s with
  | nil => exact ⟨[], rfl⟩
  | cons c cs ih =>
      unfold cutHeadingTail
      split
      · exact ⟨c :: cs, rfl⟩
      · obtain ⟨r, hr⟩ := ih
        exact ⟨r, by rw [List.cons_append, hr]⟩

theorem hasHeadingTail_cut (s : List Char) :
    hasHeadingTail (cutHeadingTail s) = false := by
  induction s with
  | nil => rfl
  | cons c cs ih =>
      unfold cutHeadingTail
      split
      · rfl
      next hguard =>
        show (decide (c = '\n') && headingCore (cutHeadingTail cs) ||
          hasHeadingTail (cutHeadingTail cs)) = false
        rw [ih, Bool.or_false]
        by_cases hc : c = '\n'
        · subst hc
          have hcs : headingCore cs = false := by
            cases hh : headingCore cs with
            | false => rfl
            | true => exact absurd (by rw [hh]; rfl) hguard
          have hcut : headingCore (cutHeadingTail cs) = false := by
            cases hh : headingCore (cutHeadingTail cs) with
            | false => rfl
            | true =>
                obtain ⟨r, hr⟩ := cutHeadingTail_prefix cs
                have hfull := headingCore_append (cutHeadingTail cs) r hh
                rw [hr] at hfull
                rw [hfull] at hcs
                exact Bool.noConfusion hcs
          rw [hcut, Bool.and_false]
        · rw [decide_eq_false hc, Bool.false_and]

theorem hasHeading_cutHeading (s : List Char) :
    hasHeading (cutHeading s) = false := by
  unfold cutHeading
  cases hc : headingCore s with
  | true =>
      rw [if_pos rfl]
      decide
  | false =>
      rw [if_neg Bool.false_ne_true]
      unfold hasHeading
      rw [hasHeadingTail_cut s, Bool.or_false]
      cases hh : headingCore (cutHeadingTail s) with
      | false => rfl
      | true =>
          obtain ⟨r, hr⟩ := cutHeadingTail_prefix s
          have hfull := headingCore_append _ r hh
          rw [hr] at hfull
          rw [hfull] at hc
          exact Bool.noConfusion hc

theorem headingCore_dropWhile (x : List Char) :
    headingCore (x.dropWhile isPySpace) = headingCore x := by
  unfold headingCore
  rw [List.dropWhile_idempotent]

theorem hasHeading_pyStrip (x : List Char) (h : hasHeading x = false) :
    hasHeading (pyStrip x) = false := by
  have h1 : hasHeading (x.dropWhile isPySpace) = false := by
    cases hh : hasHeading (x.dropWhile isPySpace) with
    | false => rfl
    | true =>
        exfalso
        unfold hasHeading at hh h
        rcases Bool.or_eq_true_iff.mp hh with hcore | htail
        · rw [headingCore_dropWhile] at hcore
          rw [hcore] at h
          simp at h
        · obtain ⟨pre, hpre⟩ := dropWhile_suffix_ex isPySpace x
          have hfull := hasHeadingTail_append_left pre _ htail
          rw [hpre] at hfull
          rw [hfull] at h
          simp at h
  cases hh : hasHeading (pyStrip x) with
  | false => rfl
  | true =>
      exfalso
      obtain ⟨r, hr⟩ := List.rdropWhile_prefix isPySpace (x.dropWhile isPySpace)
      have hfull := hasHeading_append (pyStrip x) r hh
      rw [show pyStrip x ++ r = x.dropWhile isPySpace from hr] at hfull
      rw [hfull] at h1
      exact Bool.noConfusion h1

theorem hasHeading_remove (t : List Char) :
    hasHeading (remove_next_steps_and_below t) = false := by
  unfold remove_next_steps_and_below
  split
  · decide
  · exact hasHeading_pyStrip _ (hasHeading_cutHeading (pyNormalize t))

/-- C3.  The output of `apply_next_steps` always ends with the fixed
three-bullet `NEXT_STEPS_BLOCK`; when the sanitized remainder of the input is
empty the output is exactly that block; and the text kept by
`remove_next_steps_and_below` never contains a line-initial
`próximos passos` heading (the heading and everything below it are gone). -/
theorem apply_next_steps_spec (t : List Char) :
    (∃ pre, apply_next_steps t = pre ++ NEXT_STEPS_BLOCK) ∧
    (sanitize_proposal_text (remove_next_steps_and_below t) = [] →
      apply_next_steps t = NEXT_STEPS_BLOCK) ∧
    hasHeading (remove_next_steps_and_below t) = false := by
  refine ⟨?_, ?_, hasHeading_remove t⟩
  · have hd : apply_next_steps t =
        if (sanitize_proposal_text (remove_next_steps_and_below t)).isEmpty
        then NEXT_STEPS_BLOCK
        else sanitize_proposal_text (remove_next_steps_and_below t) ++ sl "\n\n" ++
          NEXT_STEPS_BLOCK := rfl
    rw [hd]
    cases hb : (sanitize_proposal_text (remove_next_steps_and_below t)).isEmpty with
    | true => exact ⟨[], by rw [if_pos rfl]; rfl⟩
    | false =>
        exact ⟨sanitize_proposal_text (remove_next_steps_and_below t) ++ sl "\n\n",
          by rw [if_neg Bool.false_ne_true]⟩
  · intro he
    have hd : apply_next_steps t =
        if (sanitize_proposal_text (remove_next_steps_and_below t)).isEmpty
        then NEXT_STEPS_BLOCK
        else sanitize_proposal_text (remove_next_steps_and_below t) ++ sl "\n\n" ++
          NEXT_STEPS_BLOCK := rfl
    rw [hd, he]
    rfl

/-- Witness for C3: an input that is nothing but an old next-steps section
collapses to exactly the fixed block. -/
theorem apply_next_steps_spec_witness :
    apply_next_steps (sl "Próximos passos:\n- x") = NEXT_STEPS_BLOCK :=
  (apply_next_steps_spec (sl "Próximos passos:\n- x")).2.1 (by rfl)

/-! ## Claim C6: `apply_authority_before_diagnosis` -/

/-- A character `_normalize` leaves in place: not `\r`, not `\xa0`, and kept
by the zero-width filter. -/
def normalChar (c : Char) : Bool :=
  !(c = '\r' || c = ' ') && keepChar c

theorem normalChar_spec (c : Char) (h : normalChar c = true) :
    c ≠ '\r' ∧ c ≠ ' ' ∧ keepChar c = true := by
  unfold normalChar at h
  rcases Bool.and_eq_true_iff.mp h with ⟨h1, h2⟩
  rw [Bool.not_eq_true', Bool.or_eq_false_iff] at h1
  exact ⟨of_decide_eq_false h1.1, of_decide_eq_false h1.2, h2⟩

theorem replaceCRLF_cons_ne (c : Char) (cs : List Char) (hc : c ≠ '\r') :
    replaceCRLF (c :: cs) = c :: replaceCRLF cs := by
  conv_lhs => unfold replaceCRLF
  split
  · rename_i cs3 heq
    injection heq with h1 _
    exact absurd h1 hc
  · rename_i c2 cs2 heq
    injection heq with h1 h2
    rw [h1, h2]
  · rename_i heq
    exact List.noConfusion heq

theorem replaceCRLF_no_cr (x : List Char) (h : ¬ '\r' ∈ x) : replaceCRLF x = x := by
  induction x with
  | nil => rfl
  | cons c cs ih =>
      have hc : c ≠ '\r' := fun he => h (he ▸ List.mem_cons_self c cs)
      have hcs : ¬ '\r' ∈ cs := fun hm => h (List.mem_cons_of_mem c hm)
      rw [replaceCRLF_cons_ne c cs hc, ih hcs]

theorem fixChar_ne_cr (a : Char) : fixChar a ≠ '\r' := by
  unfold fixChar
  by_cases h1 : a = '\r'
  · rw [if_pos h1]
    decide
  · rw [if_neg h1]
    by_cases h2 : a = ' '
    · rw [if_pos h2]
      decide
    · rw [if_neg h2]
      exact h1

theorem fixChar_ne_nbsp (a : Char) : fixChar a ≠ ' ' := by
  unfold fixChar
  by_cases h1 : a = '\r'
  · rw [if_pos h1]
    decide
  · rw [if_neg h1]
    by_cases h2 : a = ' '
    · rw [if_pos h2]
      decide
    · rw [if_neg h2]
      exact h2

theorem fixChar_eq_self (a : Char) (h1 : a ≠ '\r') (h2 : a ≠ ' ') :
    fixChar a = a := by
  unfold fixChar
  rw [if_neg h1, if_neg h2]

theorem pyNormalize_eq_self (x : List Char)
    (h : ∀ c ∈ x, normalChar c = true) : pyNormalize x = x := by
  unfold pyNormalize
  have h1 : replaceCRLF x = x :=
    replaceCRLF_no_cr x (fun hm => absurd (normalChar_spec _ (h _ hm)).1 (by simp))
  rw [h1]
  have h2 : x.map fixChar = x := by
    have hmap : x.map fixChar = x.map id :=
      List.map_congr_left (fun a ha => by
        obtain ⟨ha1, ha2, _⟩ := normalChar_spec a (h a ha)
        exact fixChar_eq_self a ha1 ha2)
    rw [hmap, List.map_id]
  rw [h2]
  exact List.filter_eq_self.mpr (fun a ha => (normalChar_spec a (h a ha)).2.2)

theorem pyNormalize_all_normal (x : List Char) :
    ∀ c ∈ pyNormalize x, normalChar c = true := by
  intro c hc
  unfold pyNormalize at hc
  have hkeep := List.of_mem_filter hc
  have hmem := List.mem_of_mem_filter hc
  rcases List.mem_map.mp hmem with ⟨a, _, hfa⟩
  subst hfa
  unfold normalChar
  rw [hkeep, Bool.and_true, decide_eq_false (fixChar_ne_cr a),
    decide_eq_false (fixChar_ne_nbsp a)]
  rfl

theorem pyNormalize_idem (x : List Char) :
    pyNormalize (pyNormalize x) = pyNormalize x :=
  pyNormalize_eq_self _ (pyNormalize_all_normal x)

theorem mem_rdropWhile (p : Char → Bool) (x : List Char) (c : Char)
    (h : c ∈ List.rdropWhile p x) : c ∈ x :=
  (List.rdropWhile_prefix p x).sublist.subset h

theorem mem_dropWhile (p : Char → Bool) (x : List Char) (c : Char)
    (h : c ∈ x.dropWhile p) : c ∈ x := by
  obtain ⟨pre, hp⟩ := dropWhile_suffix_ex p x
  rw [← hp]
  exact List.mem_append_right pre h

theorem mem_of_pyStrip (x : List Char) (c : Char) (h : c ∈ pyStrip x) : c ∈ x :=
  mem_dropWhile _ _ _ (mem_rdropWhile _ _ _ h)

theorem dropWhile_append_nil (p : Char → Bool) (u w : List Char)
    (h : u.dropWhile p = []) : (u ++ w).dropWhile p = w.dropWhile p := by
  induction u with
  | nil => rfl
  | cons c u ih =>
      cases hpc : p c with
      | true =>
          rw [List.dropWhile_cons_of_pos hpc] at h
          rw [List.cons_append, List.dropWhile_cons_of_pos hpc]
          exact ih h
      | false =>
          rw [List.dropWhile_cons_of_neg (by simp [hpc])] at h
          exact List.noConfusion h

theorem rdropWhile_append_ne (p : Char → Bool) (y v : List Char)
    (hv : List.rdropWhile p v ≠ []) :
    List.rdropWhile p (y ++ v) = y ++ List.rdropWhile p v := by
  have hne : v.reverse.dropWhile p ≠ [] := by
    intro h0
    apply hv
    unfold List.rdropWhile
    rw [h0]
    rfl
  unfold List.rdropWhile
  rw [List.reverse_append, dropWhile_append_ne p v.reverse y.reverse hne,
    List.reverse_append, List.reverse_reverse]

theorem rdropWhile_append_nil (p : Char → Bool) (y v : List Char)
    (hv : List.rdropWhile p v = []) :
    List.rdropWhile p (y ++ v) = List.rdropWhile p y := by
  have hnil : v.reverse.dropWhile p = [] := by
    unfold List.rdropWhile at hv
    rw [List.reverse_eq_nil_iff] at hv
    exact hv
  unfold List.rdropWhile
  rw [List.reverse_append, dropWhile_append_nil p v.reverse y.reverse hnil]

theorem strIn_of_isPrefixOf (s hay : List Char) (h : List.isPrefixOf s hay = true) :
    strIn s hay = true := by
  unfold strIn
  rw [h, Bool.true_or]

theorem strIn_cons_of (s t : List Char) (c : Char) (h : strIn s t = true) :
    strIn s (c :: t) = true := by
  unfold strIn
  dsimp only []
  rw [h, Bool.or_true]

theorem strIn_append_left (s a t : List Char) (h : strIn s t = true) :
    strIn s (a ++ t) = true := by
  induction a with
  | nil => exact h
  | cons c a ih => exact strIn_cons_of s (a ++ t) c ih

theorem strIn_prefix_append (s b : List Char) : strIn s (s ++ b) = true :=
  strIn_of_isPrefixOf _ _ (by rw [List.isPrefixOf_iff_prefix]; exact ⟨b, rfl⟩)

theorem strIn_self (s : List Char) : strIn s s = true := by
  have h := strIn_prefix_append s []
  rwa [List.append_nil] at h

theorem lowerStr_append (a b : List Char) :
    lowerStr (a ++ b) = lowerStr a ++ lowerStr b := by
  unfold lowerStr
  exact List.map_append lowerChar a b

theorem AB_rstrip : List.rdropWhile isPySpace AUTHORITY_BLOCK = AUTHORITY_BLOCK := by
  decide

theorem dropWhile_AB_append (v : List Char) :
    (AUTHORITY_BLOCK ++ v).dropWhile isPySpace = AUTHORITY_BLOCK ++ v := by
  rw [show AUTHORITY_BLOCK = 'A' :: sl "utoridade\nCom experiência em criação de peças estratégicas voltadas para posicionamento e conversão, desenvolvo criativos que unem estética e resultado." from rfl]
  rw [List.cons_append, List.dropWhile_cons_of_neg (by decide)]

theorem strIn_stripped (a v : List Char) :
    strIn (lowerStr AUTHORITY_BLOCK)
      (lowerStr (List.rdropWhile isPySpace ((a ++ AUTHORITY_BLOCK) ++ v))) = true := by
  cases hv : List.rdropWhile isPySpace v with
  | nil =>
      rw [rdropWhile_append_nil isPySpace (a ++ AUTHORITY_BLOCK) v hv]
      rw [rdropWhile_append_ne isPySpace a AUTHORITY_BLOCK
        (by rw [AB_rstrip]; decide)]
      rw [AB_rstrip, lowerStr_append]
      exact strIn_append_left _ _ _ (strIn_self _)
  | cons d rs =>
      rw [rdropWhile_append_ne isPySpace (a ++ AUTHORITY_BLOCK) v
        (by rw [hv]; exact List.cons_ne_nil _ _)]
      rw [List.append_assoc, lowerStr_append, lowerStr_append]
      exact strIn_append_left _ _ _ (strIn_prefix_append _ _)

theorem strIn_block_pyStrip (u v : List Char) :
    strIn (lowerStr AUTHORITY_BLOCK)
      (lowerStr (pyStrip ((u ++ AUTHORITY_BLOCK) ++ v))) = true := by
  unfold pyStrip
  rw [List.append_assoc]
  cases hu : u.dropWhile isPySpace with
  | nil =>
      rw [dropWhile_append_nil isPySpace u _ hu, dropWhile_AB_append v]
      have h := strIn_stripped ([] : List Char) v
      rw [List.nil_append] at h
      exact h
  | cons c a1 =>
      rw [dropWhile_append_ne isPySpace u _ (by rw [hu]; exact List.cons_ne_nil _ _)]
      rw [← List.append_assoc]
      exact strIn_stripped (u.dropWhile isPySpace) v

theorem findDiagTail_parts (cs : List Char) :
    ∀ pre suf, findDiagTail cs = some (pre, suf) → pre ++ suf = cs := by
  induction cs with
  | nil =>
      intro pre suf h
      exact Option.noConfusion h
  | cons c cs ih =>
      intro pre suf h
      unfold findDiagTail at h
      split at h
      · injection h with h2
        injection h2 with hp hs
        rw [← hp, ← hs]
        rfl
      · cases hf : findDiagTail cs with
        | none =>
            rw [hf] at h
            exact Option.noConfusion h
        | some ps =>
            obtain ⟨p, q⟩ := ps
            rw [hf] at h
            dsimp only [] at h
            injection h with h2
            injection h2 with hp hs
            rw [← hp, ← hs, List.cons_append, ih p q hf]

theorem findDiag_parts (cs pre suf : List Char)
    (h : findDiag cs = some (pre, suf)) : pre ++ suf = cs := by
  unfold findDiag at h
  split at h
  · injection h with h2
    injection h2 with hp hs
    rw [← hp, ← hs]
    rfl
  · exact findDiagTail_parts cs pre suf h

set_option maxRecDepth 10000 in
theorem authKey_eq : authKey = lowerStr AUTHORITY_BLOCK := by decide

theorem apply_auth_normalized (n : List Char) (hnorm : pyNormalize n = n)
    (hcond : strIn authKey (lowerStr n) = true ∨ authHeadFound n = true ∨
      findDiag n = none) :
    apply_authority_before_diagnosis n = n := by
  unfold apply_authority_before_diagnosis
  cases hemp : n.isEmpty with
  | true => rw [if_pos rfl]
  | false =>
      rw [if_neg Bool.false_ne_true, hnorm]
      by_cases hk : strIn authKey (lowerStr n) = true
      · rw [if_pos (by rw [hk, Bool.and_true]; decide)]
      · have hk0 : strIn authKey (lowerStr n) = false := by
          cases hx : strIn authKey (lowerStr n) with
          | false => rfl
          | true => exact absurd hx hk
        rw [if_neg (by rw [hk0, Bool.and_false]; exact Bool.false_ne_true)]
        by_cases ha : authHeadFound n = true
        · rw [if_pos ha]
        · have ha0 : authHeadFound n = false := by
            cases hx : authHeadFound n with
            | false => rfl
            | true => exact absurd hx ha
          rw [if_neg (by rw [ha0]; exact Bool.false_ne_true)]
          rcases hcond with hc | hc | hc
          · exact absurd hc hk
          · exact absurd hc ha
          · rw [hc]

theorem apply_auth_cases (t : List Char) (h : t.isEmpty = false) :
    (apply_authority_before_diagnosis t = pyNormalize t ∧
      (strIn authKey (lowerStr (pyNormalize t)) = true ∨
       authHeadFound (pyNormalize t) = true ∨
       findDiag (pyNormalize t) = none)) ∨
    (∃ pre suf, findDiag (pyNormalize t) = some (pre, suf) ∧
      strIn authKey (lowerStr (pyNormalize t)) = false ∧
      authHeadFound (pyNormalize t) = false ∧
      apply_authority_before_diagnosis t = authInsert pre suf) := by
  unfold apply_authority_before_diagnosis
  rw [if_neg (by rw [h]; exact Bool.false_ne_true)]
  by_cases hk : strIn authKey (lowerStr (pyNormalize t)) = true
  · rw [if_pos (by rw [hk, Bool.and_true]; decide)]
    exact Or.inl ⟨rfl, Or.inl hk⟩
  · have hk0 : strIn authKey (lowerStr (pyNormalize t)) = false := by
      cases hx : strIn authKey (lowerStr (pyNormalize t)) with
      | false => rfl
      | true => exact absurd hx hk
    rw [if_neg (by rw [hk0, Bool.and_false]; exact Bool.false_ne_true)]
    by_cases ha : authHeadFound (pyNormalize t) = true
    · rw [if_pos ha]
      exact Or.inl ⟨rfl, Or.inr (Or.inl ha)⟩
    · have ha0 : authHeadFound (pyNormalize t) = false := by
        cases hx : authHeadFound (pyNormalize t) with
        | false => rfl
        | true => exact absurd hx ha
      rw [if_neg (by rw [ha0]; exact Bool.false_ne_true)]
      cases hf : findDiag (pyNormalize t) with
      | none => exact Or.inl ⟨rfl, Or.inr (Or.inr rfl)⟩
      | some ps =>
          obtain ⟨pre, suf⟩ := ps
          exact Or.inr ⟨pre, suf, rfl, hk0, ha0, rfl⟩

set_option maxRecDepth 10000 in
theorem authInsert_normalized (t pre suf : List Char)
    (hf : findDiag (pyNormalize t) = some (pre, suf)) :
    pyNormalize (authInsert pre suf) = authInsert pre suf := by
  refine pyNormalize_eq_self _ ?_
  intro c hc
  have hps := findDiag_parts _ _ _ hf
  have hall := pyNormalize_all_normal t
  have hnl : ∀ d ∈ sl "\n\n", normalChar d = true := by decide
  have hAB : ∀ d ∈ AUTHORITY_BLOCK, normalChar d = true := by decide
  have hcX := mem_of_pyStrip _ _ hc
  rcases List.mem_append.mp hcX with h1 | h1
  · rcases List.mem_append.mp h1 with h2 | h2
    · rcases List.mem_append.mp h2 with h3 | h3
      · rcases List.mem_append.mp h3 with h4 | h4
        · have : c ∈ pre := mem_rdropWhile _ _ _ h4
          exact hall c (by rw [← hps]; exact List.mem_append_left _ this)
        · exact hnl c h4
      · exact hAB c h3
    · exact hnl c h2
  · have : c ∈ suf := mem_dropWhile _ _ _ h1
    exact hall c (by rw [← hps]; exact List.mem_append_right _ this)

theorem authInsert_key (pre suf : List Char) :
    strIn authKey (lowerStr (authInsert pre suf)) = true := by
  rw [authKey_eq]
  unfold authInsert
  rw [List.append_assoc]
  exact strIn_block_pyStrip (rstripWs pre ++ sl "\n\n") (sl "\n\n" ++ lstripNl suf)

/-- C6 (as supported by the code).  `apply_authority_before_diagnosis` is
idempotent, and it inserts the fixed `AUTHORITY_BLOCK` at most once, exactly
before the first line containing the diagnosis heading (`authInsert`); when
no such line exists, or when the block key or an `Autoridade` heading is
already present, nothing is inserted — but the function then returns the
`_normalize`d text, not the input itself (see the counterexample). -/
theorem apply_authority_idem_spec (t : List Char) :
    apply_authority_before_diagnosis (apply_authority_before_diagnosis t) =
      apply_authority_before_diagnosis t ∧
    (findDiag (pyNormalize t) = none → t.isEmpty = false →
      apply_authority_before_diagnosis t = pyNormalize t) ∧
    ((strIn authKey (lowerStr (pyNormalize t)) = true ∨
      authHeadFound (pyNormalize t) = true) → t.isEmpty = false →
      apply_authority_before_diagnosis t = pyNormalize t) ∧
    (t.isEmpty = false → ∀ pre suf, findDiag (pyNormalize t) = some (pre, suf) →
      strIn authKey (lowerStr (pyNormalize t)) = false →
      authHeadFound (pyNormalize t) = false →
      apply_authority_before_diagnosis t = authInsert pre suf) := by
  refine ⟨?_, ?_, ?_, ?_⟩
  · cases hemp : t.isEmpty with
    | true =>
        have h0 : apply_authority_before_diagnosis t = t := by
          unfold apply_authority_before_diagnosis
          rw [if_pos hemp]
        rw [h0]
        exact h0
    | false =>
        rcases apply_auth_cases t hemp with ⟨h1, hcond⟩ | ⟨pre, suf, hf, _, _, h1⟩
        · rw [h1]
          exact apply_auth_normalized (pyNormalize t) (pyNormalize_idem t) hcond
        · rw [h1]
          exact apply_auth_normalized (authInsert pre suf)
            (authInsert_normalized t pre suf hf)
            (Or.inl (authInsert_key pre suf))
  · intro hfd hemp
    rcases apply_auth_cases t hemp with ⟨h1, _⟩ | ⟨pre, suf, hf, _, _, _⟩
    · exact h1
    · rw [hfd] at hf
      exact Option.noConfusion hf
  · intro hcond hemp
    rcases apply_auth_cases t hemp with ⟨h1, _⟩ | ⟨pre, suf, _, hk0, ha0, _⟩
    · exact h1
    · rcases hcond with hc | hc
      · rw [hk0] at hc
        exact Bool.noConfusion hc
      · rw [ha0] at hc
        exact Bool.noConfusion hc
  · intro hemp pre suf hf hk0 ha0
    rcases apply_auth_cases t hemp with ⟨_, hcond⟩ | ⟨pre2, suf2, hf2, _, _, h1⟩
    · rcases hcond with hc | hc | hc
      · rw [hk0] at hc
        exact Bool.noConfusion hc
      · rw [ha0] at hc
        exact Bool.noConfusion hc
      · rw [hf] at hc
        exact Option.noConfusion hc
    · rw [hf] at hf2
      injection hf2 with h2
      injection h2 with hp hs
      rw [← hp, ← hs] at h1
      exact h1

/-- Counterexample to the claim that `apply_authority_before_diagnosis`
leaves the text unchanged when no diagnosis line exists: on `"a\r\nb"` there
is no such line, yet the function returns the normalized `"a\nb"`, not the
input. -/
theorem apply_authority_changes_text :
    findDiag (pyNormalize (sl "a\r\nb")) = none ∧
    ¬ apply_authority_before_diagnosis (sl "a\r\nb") = sl "a\r\nb" := by
  constructor
  · decide
  · decide

/-- Witness for C6 at a concrete input containing a diagnosis line: the
second application changes nothing. -/
theorem apply_authority_idem_spec_witness :
    apply_authority_before_diagnosis
        (apply_authority_before_diagnosis (sl "Intro\nDiagnóstico e contexto: x")) =
      apply_authority_before_diagnosis (sl "Intro\nDiagnóstico e contexto: x") :=
  (apply_authority_idem_spec (sl "Intro\nDiagnóstico e contexto: x")).1

end GP


